import Mathlib

/-!
# FreeNOS `MemoryChannel` (lib/libipc/MemoryChannel.cpp)

A shallow embedding of the shared-memory ring channel: the constructor, `read`
and `write`, together with a two-endpoint system (one producer object, one
consumer object) running over the same pair of pages.

Machine integers of type `Size` are natural numbers reduced modulo
`256 ^ sizeof(Size)`; a page is a map from byte offsets to byte values.
-/

namespace FreeNOS

/-! ## Platform constants and `Size` arithmetic -/

/-- Modelled from the spec: the platform constants that `MemoryChannel.cpp` takes from
headers outside the translation unit. `PAGESIZE` is the size of one page (4096 in the
spec's scenario); `sizeofSize` is `sizeof(Size)`, the width in bytes of the unsigned
integer type of the cursor. -/
structure Platform where
  PAGESIZE : Nat
  sizeofSize : Nat
deriving DecidableEq

/-- Modelled from the spec: `RingHead` is a record holding a single integer cursor
`index` of type `Size`, so `sizeof(RingHead) = sizeof(Size)`. -/
def Platform.sizeofRingHead (P : Platform) : Nat := P.sizeofSize

/-- Number of values of the unsigned type `Size`. -/
def Platform.sizeModulus (P : Platform) : Nat := 256 ^ P.sizeofSize

/-- Platforms on which `Size` has at least one byte and can hold `PAGESIZE`. -/
def Platform.WF (P : Platform) : Prop := 0 < P.sizeofSize ∧ P.PAGESIZE < P.sizeModulus

instance (P : Platform) : Decidable P.WF :=
  inferInstanceAs (Decidable (0 < P.sizeofSize ∧ P.PAGESIZE < P.sizeModulus))

/-- Unsigned addition in `Size`. -/
def sizeAdd (P : Platform) (a b : Nat) : Nat := (a + b) % P.sizeModulus

/-- Unsigned subtraction in `Size` (wraps below zero). -/
def sizeSub (P : Platform) (a b : Nat) : Nat :=
  (a % P.sizeModulus + (P.sizeModulus - b % P.sizeModulus)) % P.sizeModulus

/-- Unsigned multiplication in `Size`. -/
def sizeMul (P : Platform) (a b : Nat) : Nat := (a * b) % P.sizeModulus

/-! ## Bytes, pages and the I/O accessor -/

/-- A caller buffer or a message: a list of byte values. -/
abbrev Bytes := List Nat

/-- One mapped page, as a map from byte offset to byte value. -/
abbrev Region := Nat → Nat

/-- A page filled with zero bytes. -/
def Region.zero : Region := fun _ => 0

/-- Modelled from the spec: the memory accessor `read(offset, length, outBuffer)`, which
yields the `len` bytes of the region starting at `off`. -/
def ioRead (r : Region) (off len : Nat) : Bytes :=
  (List.range len).map (fun i => r (off + i))

/-- Modelled from the spec: the memory accessor `write(offset, length, inBuffer)`, which
stores the first `len` bytes of `buf` at `off` and leaves every other byte alone. -/
def ioWrite (r : Region) (off len : Nat) (buf : Bytes) : Region :=
  fun a => if off ≤ a ∧ a < off + len then buf.getD (a - off) 0 else r a

/-- Object representation of a `Size` value in `w` bytes (least significant byte first). -/
def encodeSize : Nat → Nat → Bytes
  | 0, _ => []
  | w + 1, v => (v % 256) :: encodeSize w (v / 256)

/-- The `Size` value whose object representation is the given bytes. -/
def decodeSize : Bytes → Nat
  | [] => 0
  | b :: bs => b + 256 * decodeSize bs

/-- Result of copying `len` freshly read bytes over the start of a caller buffer. -/
def fillBuffer (buffer : Bytes) (len : Nat) (bytes : Bytes) : Bytes :=
  bytes ++ buffer.drop len

/-! ## The channel object -/

/-- The enumeration `Channel::Mode`. -/
inductive Mode where
  | Producer
  | Consumer
deriving DecidableEq

/-- The `Channel::Result` codes returned in `MemoryChannel.cpp`. -/
inductive Result where
  | Success
  | IOError
  | ChannelFull
  | NotFound
deriving DecidableEq

/-- Private state of one `MemoryChannel` object: `m_mode`, `m_messageSize`,
`m_maximumMessages` and `m_head.index`. -/
structure MemoryChannel where
  mode : Mode
  messageSize : Nat
  maximumMessages : Nat
  head : Nat
deriving DecidableEq

/-- The two pages a channel is bound to: `m_data` and `m_feedback`. -/
structure Shared where
  data : Region
  feedback : Region

/-- Both pages zero-filled. -/
def Shared.zero : Shared := ⟨Region.zero, Region.zero⟩

/-- The member initialiser `(PAGESIZE / messageSize) - 1U`, in `Size` arithmetic. -/
def computeMaximumMessages (P : Platform) (messageSize : Nat) : Nat :=
  sizeSub P (P.PAGESIZE / messageSize) 1

/-- The two constructor assertions on `messageSize`. -/
def validMessageSize (P : Platform) (messageSize : Nat) : Prop :=
  P.sizeofRingHead ≤ messageSize ∧ messageSize < P.PAGESIZE / 2

instance (P : Platform) (n : Nat) : Decidable (validMessageSize P n) :=
  inferInstanceAs (Decidable (P.sizeofRingHead ≤ n ∧ n < P.PAGESIZE / 2))

/-- Constructor `MemoryChannel::MemoryChannel(mode, messageSize)`. The initialiser divides by
`messageSize` (a zero divisor aborts), then the two assertions run, then `m_head` is
cleared. `none` stands for an aborted construction. The pages are threaded through to
record that the constructor does not access them. -/
def MemoryChannel.new (P : Platform) (mode : Mode) (messageSize : Nat) (sh : Shared) :
    Option (MemoryChannel × Shared) :=
  if messageSize = 0 then none
  else
    let maxMsgs := computeMaximumMessages P messageSize
    if ¬ (messageSize ≥ P.sizeofRingHead) then none
    else if ¬ (messageSize < P.PAGESIZE / 2) then none
    else some ({ mode := mode, messageSize := messageSize,
                 maximumMessages := maxMsgs, head := 0 }, sh)

/-- The index held by the `RingHead` record at offset 0 of a page. -/
def headIndex (P : Platform) (r : Region) : Nat :=
  decodeSize (ioRead r 0 P.sizeofRingHead)

/-- Method `MemoryChannel::read(buffer)`: returns the result code, the object afterwards, the
pages afterwards and the caller's buffer afterwards. -/
def MemoryChannel.read (P : Platform) (c : MemoryChannel) (sh : Shared) (buffer : Bytes) :
    Result × MemoryChannel × Shared × Bytes :=
  -- m_data.read(0, sizeof(head), &head)
  let head := headIndex P sh.data
  if head = c.head then
    (Result.NotFound, c, sh, buffer)
  else
    -- m_data.read((m_head.index+1) * m_messageSize, m_messageSize, buffer)
    let buffer1 := fillBuffer buffer c.messageSize
      (ioRead sh.data (sizeMul P (sizeAdd P c.head 1) c.messageSize) c.messageSize)
    -- m_head.index = (m_head.index + 1) % m_maximumMessages
    let c1 := { c with head := sizeAdd P c.head 1 % c.maximumMessages }
    -- m_feedback.write(0, sizeof(m_head), &m_head)
    let feedback1 := ioWrite sh.feedback 0 P.sizeofRingHead
      (encodeSize P.sizeofRingHead c1.head)
    (Result.Success, c1, { sh with feedback := feedback1 }, buffer1)

/-- Method `MemoryChannel::write(buffer)`: returns the result code, the object afterwards and
the pages afterwards. -/
def MemoryChannel.write (P : Platform) (c : MemoryChannel) (sh : Shared) (buffer : Bytes) :
    Result × MemoryChannel × Shared :=
  -- m_feedback.read(0, sizeof(RingHead), &reader)
  let reader := headIndex P sh.feedback
  if sizeAdd P c.head 1 % c.maximumMessages = reader then
    (Result.ChannelFull, c, sh)
  else
    -- m_data.write((m_head.index+1) * m_messageSize, m_messageSize, buffer)
    let data1 := ioWrite sh.data (sizeMul P (sizeAdd P c.head 1) c.messageSize)
      c.messageSize buffer
    -- m_head.index = (m_head.index + 1) % m_maximumMessages
    let c1 := { c with head := sizeAdd P c.head 1 % c.maximumMessages }
    -- m_data.write(0, sizeof(m_head), &m_head)
    let data2 := ioWrite data1 0 P.sizeofRingHead (encodeSize P.sizeofRingHead c1.head)
    (Result.Success, c1, { sh with data := data2 })

/-- The invariant of a constructed object: the assertions held, the capacity is the one
the initialiser computed, and the cursor is below the capacity. -/
def MemoryChannel.WF (P : Platform) (c : MemoryChannel) : Prop :=
  validMessageSize P c.messageSize ∧
  c.maximumMessages = computeMaximumMessages P c.messageSize ∧
  c.head < c.maximumMessages

/-! ## Repeated calls on one endpoint -/

/-- Consecutive `read` calls on one object, one per caller buffer; collects the result
code and the buffer contents after each call. -/
def readMany (P : Platform) (c : MemoryChannel) (sh : Shared) :
    List Bytes → List (Result × Bytes) × MemoryChannel × Shared
  | [] => ([], c, sh)
  | b :: bs =>
    let r := c.read P sh b
    let rest := readMany P r.2.1 r.2.2.1 bs
    ((r.1, r.2.2.2) :: rest.1, rest.2)

/-! ## Producer and consumer over the same pages -/

/-- A producer object and a consumer object bound to the same two pages. -/
structure Sys where
  prod : MemoryChannel
  cons : MemoryChannel
  sh : Shared

/-- Both endpoints freshly constructed with the same message size over zero-filled
pages. -/
def Sys.fresh (P : Platform) (messageSize : Nat) : Option Sys :=
  match MemoryChannel.new P Mode.Producer messageSize Shared.zero with
  | none => none
  | some (p, sh1) =>
    match MemoryChannel.new P Mode.Consumer messageSize sh1 with
    | none => none
    | some (c, sh2) => some ⟨p, c, sh2⟩

/-- One call issued to the pair: the producer writes a message, or the consumer reads
into a buffer. -/
inductive Op where
  | write (msg : Bytes)
  | read (buffer : Bytes)
deriving DecidableEq

/-- Outcome of one call: the result code and, for a read, the caller's buffer after the
call (for a write, the message that was offered). -/
abbrev Outcome := Result × Bytes

/-- Executes one call on the pair. -/
def Sys.step (P : Platform) (s : Sys) : Op → Outcome × Sys
  | Op.write msg =>
    let r := s.prod.write P s.sh msg
    ((r.1, msg), { s with prod := r.2.1, sh := r.2.2 })
  | Op.read buffer =>
    let r := s.cons.read P s.sh buffer
    ((r.1, r.2.2.2), { s with cons := r.2.1, sh := r.2.2.1 })

/-- Executes a sequence of calls, collecting the outcomes. -/
def Sys.run (P : Platform) : Sys → List Op → List Outcome × Sys
  | s, [] => ([], s)
  | s, op :: ops =>
    let r := s.step P op
    let rest := Sys.run P r.2 ops
    (r.1 :: rest.1, rest.2)

/-- Messages accepted by the successful writes of a run, in call order. -/
def accepted : List Op → List Outcome → List Bytes
  | Op.write msg :: ops, (Result.Success, _) :: rs => msg :: accepted ops rs
  | _ :: ops, _ :: rs => accepted ops rs
  | _, _ => []

/-- Messages returned by the successful reads of a run, in call order: the first
`messageSize` bytes of the caller's buffer after the call. -/
def delivered (messageSize : Nat) : List Op → List Outcome → List Bytes
  | Op.read _ :: ops, (Result.Success, out) :: rs =>
    out.take messageSize :: delivered messageSize ops rs
  | _ :: ops, _ :: rs => delivered messageSize ops rs
  | _, _ => []

/-- A call is well-formed when the message it offers has exactly `messageSize` bytes. -/
def Op.valid (messageSize : Nat) : Op → Prop
  | Op.write msg => msg.length = messageSize
  | Op.read _ => True

instance (messageSize : Nat) (op : Op) : Decidable (op.valid messageSize) :=
  match op with
  | Op.write msg => inferInstanceAs (Decidable (msg.length = messageSize))
  | Op.read _ => inferInstanceAs (Decidable True)

/-- Every message offered in the sequence has exactly `messageSize` bytes. -/
def validOps (messageSize : Nat) (ops : List Op) : Prop :=
  ∀ op ∈ ops, op.valid messageSize

/-- Twenty write/read pairs, the `i`-th message being `messageSize` bytes of value `i`. -/
def pairOps (messageSize : Nat) : List Op :=
  (List.range 20).flatMap
    (fun i => [Op.write (List.replicate messageSize i), Op.read (List.replicate messageSize 0)])

/-- The reference platform of the spec's scenario: 4096-byte pages, 4-byte `Size`. -/
def refPlatform : Platform := ⟨4096, 4⟩

/-- The pair on the reference platform with 512-byte messages (capacity 7) after twenty
write/read pairs. -/
def pairState : Sys :=
  (Sys.run refPlatform
    (Sys.mk (MemoryChannel.mk Mode.Producer 512 (computeMaximumMessages refPlatform 512) 0)
      (MemoryChannel.mk Mode.Consumer 512 (computeMaximumMessages refPlatform 512) 0)
      Shared.zero)
    (pairOps 512)).2

/-- Cursor part of the invariant of a producer/consumer pair with message size `ms`:
both objects carry the constructor's values, both cursors are below the capacity, and
each page's head record holds the cursor of the endpoint that publishes it. -/
structure Sys.IdxInv (P : Platform) (ms : Nat) (s : Sys) : Prop where
  prodSize : s.prod.messageSize = ms
  prodCap : s.prod.maximumMessages = computeMaximumMessages P ms
  consSize : s.cons.messageSize = ms
  consCap : s.cons.maximumMessages = computeMaximumMessages P ms
  prodHead : s.prod.head < computeMaximumMessages P ms
  consHead : s.cons.head < computeMaximumMessages P ms
  dataHead : headIndex P s.sh.data = s.prod.head
  feedbackHead : headIndex P s.sh.feedback = s.cons.head

/-- Full invariant of the pair, relative to the list `pending` of messages written but
not yet read: the producer is `pending.length` positions ahead of the consumer, fewer
than the capacity, and the `i`-th pending message sits intact in the slot the consumer
will read `i` calls from now. -/
structure Sys.Inv (P : Platform) (ms : Nat) (s : Sys) (pending : List Bytes) : Prop where
  idx : Sys.IdxInv P ms s
  len : pending.length < computeMaximumMessages P ms
  ahead : s.prod.head = (s.cons.head + pending.length) % computeMaximumMessages P ms
  slots : ∀ i (h : i < pending.length),
    ioRead s.sh.data (((s.cons.head + i) % computeMaximumMessages P ms + 1) * ms) ms
      = pending[i]

/-- States of the pair reachable from the fresh pair by some sequence of calls. -/
def Sys.Reachable (P : Platform) (ms : Nat) (s : Sys) : Prop :=
  ∃ s0 ops, Sys.fresh P ms = some s0 ∧ (Sys.run P s0 ops).2 = s

/-! ## Region binding and cache maintenance -/

/-- The two region handles of a channel object. -/
inductive RegionId where
  | data
  | feedback
deriving DecidableEq

/-- Base addresses held by the handles `m_data` and `m_feedback`. -/
structure Bases where
  dataBase : Nat
  feedbackBase : Nat
deriving DecidableEq

/-- Modelled from the spec: the answer of the memory subsystem to one request
`map(physicalAddress, size)`: the result code, where 0 is the success code, and the
virtual base the handle takes when the request succeeds. -/
structure MapReply where
  code : Nat
  base : Nat
deriving DecidableEq

/-- Modelled from the spec: the memory subsystem as the handles see it; the reply may
depend on the handle that asks, on the physical address and on the size. -/
abbrev Mapper := RegionId → Nat → Nat → MapReply

/-- One request made to the memory subsystem. -/
structure MapRequest where
  region : RegionId
  phys : Nat
  size : Nat
deriving DecidableEq

/-- One line of the error log: which region could not be mapped, the address that was
asked for, and the result code, as the `ERROR` statements of `setPhysical` print them. -/
structure LogLine where
  region : RegionId
  address : Nat
  code : Nat
deriving DecidableEq

/-- Method `MemoryChannel::setVirtual(data, feedback)`: both handles take the given base
and the call returns `Success`. -/
def MemoryChannel.setVirtual (_b : Bases) (data feedback : Nat) : Result × Bases :=
  (Result.Success, Bases.mk data feedback)

/-- Method `MemoryChannel::setPhysical(data, feedback)`: returns the result code, the
handles afterwards, the requests made to the memory subsystem in order, and the lines
written to the error log. A successful request sets the base of its handle; a failed one
leaves the handle alone. -/
def MemoryChannel.setPhysical (P : Platform) (mapper : Mapper) (b : Bases)
    (data feedback : Nat) : Result × Bases × List MapRequest × List LogLine :=
  -- IO::Result result = m_data.map(data, PAGESIZE)
  let result := mapper RegionId.data data P.PAGESIZE
  let req1 := MapRequest.mk RegionId.data data P.PAGESIZE
  if result.code ≠ 0 then
    (Result.IOError, b, [req1], [LogLine.mk RegionId.data data result.code])
  else
    let b1 := Bases.mk result.base b.feedbackBase
    -- result = m_feedback.map(feedback, PAGESIZE)
    let result2 := mapper RegionId.feedback feedback P.PAGESIZE
    let req2 := MapRequest.mk RegionId.feedback feedback P.PAGESIZE
    if result2.code ≠ 0 then
      (Result.IOError, b1, [req1, req2],
        [LogLine.mk RegionId.feedback feedback result2.code])
    else
      (Result.Success, Bases.mk result.base result2.base, [req1, req2], [])

/-- Method `MemoryChannel::flush()`: returns the result code, the object and the pages
afterwards, and the addresses passed to `cleanData` in call order. `isKernel` is the
global privilege flag. -/
def MemoryChannel.flush (isKernel : Bool) (c : MemoryChannel) (b : Bases) (sh : Shared) :
    Result × MemoryChannel × Shared × List Nat :=
  if ¬ isKernel then
    (Result.IOError, c, sh, [])
  else
    -- cache.cleanData(m_data.getBase()); cache.cleanData(m_feedback.getBase())
    (Result.Success, c, sh, [b.dataBase, b.feedbackBase])

/-- A memory subsystem that refuses the data page with code 1 and grants the feedback
page. -/
def dataFails : Mapper := fun r phys _ =>
  match r with
  | RegionId.data => MapReply.mk 1 0
  | RegionId.feedback => MapReply.mk 0 phys

/-- A memory subsystem that grants the data page and refuses the feedback page with
code 2. -/
def feedbackFails : Mapper := fun r phys _ =>
  match r with
  | RegionId.data => MapReply.mk 0 phys
  | RegionId.feedback => MapReply.mk 2 0

/-- A memory subsystem that grants every request at the address asked for. -/
def mapsAll : Mapper := fun _ phys _ => MapReply.mk 0 phys

/-! ## Slots and the order of page accesses -/

/-- The offset `(m_head.index+1) * m_messageSize` of the payload access of `read` and
`write`, in `Size` arithmetic. -/
def payloadOffset (P : Platform) (c : MemoryChannel) : Nat :=
  sizeMul P (sizeAdd P c.head 1) c.messageSize

/-- Contents of slot `k` of a page: the bytes `[k * messageSize, (k+1) * messageSize)`. -/
def slotBytes (r : Region) (messageSize k : Nat) : Bytes :=
  ioRead r (k * messageSize) messageSize

/-- One call of the memory accessor: which page, which direction, offset and length. -/
inductive Access where
  | read (region : RegionId) (off len : Nat)
  | write (region : RegionId) (off len : Nat)
deriving DecidableEq

/-- One past the last byte offset an access touches. -/
def Access.endOffset : Access → Nat
  | Access.read _ off len => off + len
  | Access.write _ off len => off + len

/-- The pages together with the accesses made to them so far, oldest first. -/
structure TracedShared where
  sh : Shared
  trace : List Access

/-- The page behind a handle. -/
def Shared.get (sh : Shared) : RegionId → Region
  | RegionId.data => sh.data
  | RegionId.feedback => sh.feedback

/-- The pages with the page behind one handle replaced. -/
def Shared.set (sh : Shared) : RegionId → Region → Shared
  | RegionId.data, r => Shared.mk r sh.feedback
  | RegionId.feedback, r => Shared.mk sh.data r

/-- Modelled from the spec: the accessor `read(offset, length, outBuffer)` on one handle,
with the access recorded. -/
def TracedShared.read (t : TracedShared) (region : RegionId) (off len : Nat) :
    Bytes × TracedShared :=
  (ioRead (t.sh.get region) off len,
    TracedShared.mk t.sh (t.trace ++ [Access.read region off len]))

/-- Modelled from the spec: the accessor `write(offset, length, inBuffer)` on one handle,
with the access recorded. -/
def TracedShared.write (t : TracedShared) (region : RegionId) (off len : Nat)
    (buf : Bytes) : TracedShared :=
  TracedShared.mk (t.sh.set region (ioWrite (t.sh.get region) off len buf))
    (t.trace ++ [Access.write region off len])

/-- Method `MemoryChannel::read(buffer)` statement by statement over the recording
accessor. -/
def MemoryChannel.readTraced (P : Platform) (c : MemoryChannel) (t : TracedShared)
    (buffer : Bytes) : Result × MemoryChannel × TracedShared × Bytes :=
  -- m_data.read(0, sizeof(head), &head)
  let r0 := t.read RegionId.data 0 P.sizeofRingHead
  if decodeSize r0.1 = c.head then
    (Result.NotFound, c, r0.2, buffer)
  else
    -- m_data.read((m_head.index+1) * m_messageSize, m_messageSize, buffer)
    let r1 := r0.2.read RegionId.data
      (sizeMul P (sizeAdd P c.head 1) c.messageSize) c.messageSize
    let buffer1 := fillBuffer buffer c.messageSize r1.1
    -- m_head.index = (m_head.index + 1) % m_maximumMessages
    let c1 := { c with head := sizeAdd P c.head 1 % c.maximumMessages }
    -- m_feedback.write(0, sizeof(m_head), &m_head)
    let t2 := r1.2.write RegionId.feedback 0 P.sizeofRingHead
      (encodeSize P.sizeofRingHead c1.head)
    (Result.Success, c1, t2, buffer1)

/-- Method `MemoryChannel::write(buffer)` statement by statement over the recording
accessor. -/
def MemoryChannel.writeTraced (P : Platform) (c : MemoryChannel) (t : TracedShared)
    (buffer : Bytes) : Result × MemoryChannel × TracedShared :=
  -- m_feedback.read(0, sizeof(RingHead), &reader)
  let r0 := t.read RegionId.feedback 0 P.sizeofRingHead
  if sizeAdd P c.head 1 % c.maximumMessages = decodeSize r0.1 then
    (Result.ChannelFull, c, r0.2)
  else
    -- m_data.write((m_head.index+1) * m_messageSize, m_messageSize, buffer)
    let t1 := r0.2.write RegionId.data
      (sizeMul P (sizeAdd P c.head 1) c.messageSize) c.messageSize buffer
    -- m_head.index = (m_head.index + 1) % m_maximumMessages
    let c1 := { c with head := sizeAdd P c.head 1 % c.maximumMessages }
    -- m_data.write(0, sizeof(m_head), &m_head)
    let t2 := t1.write RegionId.data 0 P.sizeofRingHead
      (encodeSize P.sizeofRingHead c1.head)
    (Result.Success, c1, t2)

/-- Six writes of 512-byte messages (bytes of value 1 to 6) followed by one read. -/
def wrapOps : List Op :=
  (List.range 6).map (fun i => Op.write (List.replicate 512 (i + 1)))
    ++ [Op.read (List.replicate 512 0)]

/-- The pair on the reference platform with 512-byte messages (capacity 7) after six
writes and one read: the producer's head is 6, the consumer's head is 1. -/
def wrapState : Sys :=
  (Sys.run refPlatform
    (Sys.mk (MemoryChannel.mk Mode.Producer 512 (computeMaximumMessages refPlatform 512) 0)
      (MemoryChannel.mk Mode.Consumer 512 (computeMaximumMessages refPlatform 512) 0)
      Shared.zero)
    wrapOps).2

/-! ## Memory accessor and cursor encoding -/

theorem ioRead_length (r : Region) (off len : Nat) : (ioRead r off len).length = len := by
  simp [ioRead]

theorem ioRead_ioWrite_same (r : Region) (off : Nat) (buf : Bytes) :
    ioRead (ioWrite r off buf.length buf) off buf.length = buf := by
  apply List.ext_getElem
  · simp [ioRead]
  · intro i h1 h2
    simp [ioRead, ioWrite, h2, List.getD_eq_getElem?_getD]

theorem ioRead_ioWrite_disjoint (r : Region) (off len : Nat) (buf : Bytes) (off1 len1 : Nat)
    (h : off1 + len1 ≤ off ∨ off + len ≤ off1) :
    ioRead (ioWrite r off len buf) off1 len1 = ioRead r off1 len1 := by
  unfold ioRead
  apply List.map_congr_left
  intro i hi
  have hi1 : i < len1 := List.mem_range.mp hi
  have hno : ¬ (off ≤ off1 + i ∧ off1 + i < off + len) := by omega
  simp [ioWrite, hno]

theorem encodeSize_length (w v : Nat) : (encodeSize w v).length = w := by
  induction w generalizing v with
  | zero => rfl
  | succ w ih => simp [encodeSize, ih]

theorem decodeSize_encodeSize (w v : Nat) : decodeSize (encodeSize w v) = v % 256 ^ w := by
  induction w generalizing v with
  | zero => simp [encodeSize, decodeSize, Nat.mod_one]
  | succ w ih =>
    simp only [encodeSize, decodeSize, ih]
    rw [pow_succ, Nat.mul_comm (256 ^ w) 256, Nat.mod_mul]

theorem headIndex_ioWrite (P : Platform) (r : Region) (v : Nat) (hv : v < P.sizeModulus) :
    headIndex P (ioWrite r 0 P.sizeofRingHead (encodeSize P.sizeofRingHead v)) = v := by
  unfold headIndex
  have hlen := encodeSize_length P.sizeofRingHead v
  have h := ioRead_ioWrite_same r 0 (encodeSize P.sizeofRingHead v)
  rw [hlen] at h
  rw [h, decodeSize_encodeSize]
  exact Nat.mod_eq_of_lt hv

theorem headIndex_ioWrite_above (P : Platform) (r : Region) (off len : Nat) (buf : Bytes)
    (h : P.sizeofRingHead ≤ off) :
    headIndex P (ioWrite r off len buf) = headIndex P r := by
  unfold headIndex
  rw [ioRead_ioWrite_disjoint]
  left; omega

theorem headIndex_zero (P : Platform) : headIndex P Region.zero = 0 := by
  unfold headIndex ioRead Region.zero
  generalize P.sizeofRingHead = w
  have h : ∀ l : List Nat, decodeSize (l.map (fun _ => 0)) = 0 := by
    intro l
    induction l with
    | nil => rfl
    | cons a l ih => simp only [List.map, decodeSize, ih]
  exact h _

/-! ## Capacity arithmetic -/

theorem sizeSub_one (P : Platform) (a : Nat) (h1 : 1 ≤ a) (h2 : a < P.sizeModulus) :
    sizeSub P a 1 = a - 1 := by
  unfold sizeSub
  have hM : 1 < P.sizeModulus := by omega
  rw [Nat.mod_eq_of_lt h2, Nat.mod_eq_of_lt hM]
  have e : a + (P.sizeModulus - 1) = (a - 1) + P.sizeModulus := by omega
  rw [e, Nat.add_mod_right]
  exact Nat.mod_eq_of_lt (by omega)

theorem capacity_facts {P : Platform} (hP : P.WF) {ms : Nat} (hv : validMessageSize P ms) :
    0 < ms ∧ 2 ≤ P.PAGESIZE / ms ∧
    computeMaximumMessages P ms = P.PAGESIZE / ms - 1 ∧
    (computeMaximumMessages P ms + 1) * ms ≤ P.PAGESIZE := by
  obtain ⟨hW, hM⟩ := hP
  obtain ⟨h1, h2⟩ := hv
  have hms : 0 < ms := by unfold Platform.sizeofRingHead at h1; omega
  have h2ms : 2 * ms ≤ P.PAGESIZE := by omega
  have hq : 2 ≤ P.PAGESIZE / ms := (Nat.le_div_iff_mul_le hms).mpr h2ms
  have hle : P.PAGESIZE / ms ≤ P.PAGESIZE := Nat.div_le_self _ _
  have hc : computeMaximumMessages P ms = P.PAGESIZE / ms - 1 :=
    sizeSub_one P _ (by omega) (by omega)
  refine ⟨hms, hq, hc, ?_⟩
  rw [hc]
  have e : P.PAGESIZE / ms - 1 + 1 = P.PAGESIZE / ms := by omega
  rw [e]
  exact Nat.div_mul_le_self _ _

theorem cursor_no_wrap {P : Platform} (hP : P.WF) {ms : Nat} (hv : validMessageSize P ms)
    {h : Nat} (hh : h < computeMaximumMessages P ms) :
    sizeAdd P h 1 = h + 1 ∧ sizeMul P (sizeAdd P h 1) ms = (h + 1) * ms ∧
    computeMaximumMessages P ms < P.sizeModulus := by
  obtain ⟨hms, _, _, hle⟩ := capacity_facts hP hv
  have hM := hP.2
  have hmul : (h + 1) * ms ≤ computeMaximumMessages P ms * ms :=
    Nat.mul_le_mul_right ms hh
  have hcap : computeMaximumMessages P ms * ms + ms ≤ P.PAGESIZE := by
    rw [Nat.add_mul, Nat.one_mul] at hle; exact hle
  have hcm : computeMaximumMessages P ms ≤ computeMaximumMessages P ms * ms :=
    Nat.le_mul_of_pos_right _ hms
  have ha : sizeAdd P h 1 = h + 1 := Nat.mod_eq_of_lt (by omega)
  refine ⟨ha, ?_, by omega⟩
  rw [ha]
  exact Nat.mod_eq_of_lt (by omega)

theorem mod_add_inj {n c i j : Nat} (hi : i < n) (hj : j < n)
    (h : (c + i) % n = (c + j) % n) : i = j := by
  have h1 : i % n = j % n := Nat.ModEq.add_left_cancel' c h
  rwa [Nat.mod_eq_of_lt hi, Nat.mod_eq_of_lt hj] at h1

theorem slot_disjoint {a b ms : Nat} (h : a ≠ b) :
    (a + 1) * ms + ms ≤ (b + 1) * ms ∨ (b + 1) * ms + ms ≤ (a + 1) * ms := by
  rcases Nat.lt_or_gt_of_ne h with hlt | hgt
  · left
    have : (a + 1 + 1) * ms ≤ (b + 1) * ms := Nat.mul_le_mul_right ms (by omega)
    rw [Nat.add_mul (a + 1) 1 ms, Nat.one_mul] at this
    exact this
  · right
    have : (b + 1 + 1) * ms ≤ (a + 1) * ms := Nat.mul_le_mul_right ms (by omega)
    rw [Nat.add_mul (b + 1) 1 ms, Nat.one_mul] at this
    exact this

theorem next_eq_iff {n c k : Nat} (hc : c < n) (hk : k < n) :
    ((c + k) % n + 1) % n = c ↔ k + 1 = n := by
  rw [Nat.mod_add_mod, Nat.add_assoc]
  constructor
  · intro h
    by_contra hne
    have hk1 : k + 1 < n := by omega
    have h0 : (c + (k + 1)) % n = (c + 0) % n := by
      rw [h, Nat.add_zero, Nat.mod_eq_of_lt hc]
    have := mod_add_inj hk1 (by omega) h0
    omega
  · intro h
    rw [h, Nat.add_mod_right, Nat.mod_eq_of_lt hc]

theorem ahead_eq_iff {n c k : Nat} (hc : c < n) (hk : k < n) :
    (c + k) % n = c ↔ k = 0 := by
  constructor
  · intro h
    have h0 : (c + k) % n = (c + 0) % n := by
      rw [h, Nat.add_zero, Nat.mod_eq_of_lt hc]
    exact mod_add_inj hk (by omega) h0
  · intro h
    rw [h, Nat.add_zero, Nat.mod_eq_of_lt hc]

/-! ## Normal forms of the calls on a constructed object -/

theorem new_eq_some {P : Platform} (hP : P.WF) {ms : Nat} (hv : validMessageSize P ms)
    (mode : Mode) (sh : Shared) :
    MemoryChannel.new P mode ms sh =
      some ({ mode := mode, messageSize := ms,
              maximumMessages := computeMaximumMessages P ms, head := 0 }, sh) := by
  obtain ⟨hms, _, _, _⟩ := capacity_facts hP hv
  obtain ⟨h1, h2⟩ := hv
  unfold MemoryChannel.new
  have h0 : ms ≠ 0 := by omega
  simp [h0, h1, h2]

theorem new_eq_none {P : Platform} {ms : Nat} (hv : ¬ validMessageSize P ms)
    (mode : Mode) (sh : Shared) :
    MemoryChannel.new P mode ms sh = none := by
  unfold validMessageSize at hv
  unfold MemoryChannel.new
  by_cases h0 : ms = 0
  · simp [h0]
  · by_cases h1 : P.sizeofRingHead ≤ ms
    · have h2 : ¬ ms < P.PAGESIZE / 2 := fun h => hv ⟨h1, h⟩
      simp [h0, h1, h2]
    · simp [h0, h1]

theorem write_eq {P : Platform} (hP : P.WF) {c : MemoryChannel} (hc : c.WF P)
    (sh : Shared) (buf : Bytes) :
    c.write P sh buf =
      if (c.head + 1) % c.maximumMessages = headIndex P sh.feedback then
        (Result.ChannelFull, c, sh)
      else
        (Result.Success, { c with head := (c.head + 1) % c.maximumMessages },
          Shared.mk
            (ioWrite (ioWrite sh.data ((c.head + 1) * c.messageSize) c.messageSize buf)
              0 P.sizeofRingHead
              (encodeSize P.sizeofRingHead ((c.head + 1) % c.maximumMessages)))
            sh.feedback) := by
  obtain ⟨hv, hcap, hh⟩ := hc
  rw [hcap] at hh
  obtain ⟨ha, hm, _⟩ := cursor_no_wrap hP hv hh
  rw [ha] at hm
  unfold MemoryChannel.write
  simp only [ha, hm]

theorem read_eq {P : Platform} (hP : P.WF) {c : MemoryChannel} (hc : c.WF P)
    (sh : Shared) (buf : Bytes) :
    c.read P sh buf =
      if headIndex P sh.data = c.head then
        (Result.NotFound, c, sh, buf)
      else
        (Result.Success, { c with head := (c.head + 1) % c.maximumMessages },
          Shared.mk sh.data
            (ioWrite sh.feedback 0 P.sizeofRingHead
              (encodeSize P.sizeofRingHead ((c.head + 1) % c.maximumMessages))),
          fillBuffer buf c.messageSize
            (ioRead sh.data ((c.head + 1) * c.messageSize) c.messageSize)) := by
  obtain ⟨hv, hcap, hh⟩ := hc
  rw [hcap] at hh
  obtain ⟨ha, hm, _⟩ := cursor_no_wrap hP hv hh
  rw [ha] at hm
  unfold MemoryChannel.read
  simp only [ha, hm]

theorem IdxInv.prodWF {P : Platform} {ms : Nat} {s : Sys} (hv : validMessageSize P ms)
    (hI : Sys.IdxInv P ms s) : s.prod.WF P := by
  refine ⟨?_, ?_, ?_⟩
  · rw [hI.prodSize]; exact hv
  · rw [hI.prodSize]; exact hI.prodCap
  · rw [hI.prodCap]; exact hI.prodHead

theorem IdxInv.consWF {P : Platform} {ms : Nat} {s : Sys} (hv : validMessageSize P ms)
    (hI : Sys.IdxInv P ms s) : s.cons.WF P := by
  refine ⟨?_, ?_, ?_⟩
  · rw [hI.consSize]; exact hv
  · rw [hI.consSize]; exact hI.consCap
  · rw [hI.consCap]; exact hI.consHead

theorem step_write_eq {P : Platform} (hP : P.WF) {ms : Nat} (hv : validMessageSize P ms)
    {s : Sys} (hI : Sys.IdxInv P ms s) (msg : Bytes) :
    s.step P (Op.write msg) =
      if (s.prod.head + 1) % computeMaximumMessages P ms = s.cons.head then
        ((Result.ChannelFull, msg), s)
      else
        ((Result.Success, msg),
          Sys.mk { s.prod with head := (s.prod.head + 1) % computeMaximumMessages P ms }
            s.cons
            (Shared.mk
              (ioWrite (ioWrite s.sh.data ((s.prod.head + 1) * ms) ms msg)
                0 P.sizeofRingHead
                (encodeSize P.sizeofRingHead
                  ((s.prod.head + 1) % computeMaximumMessages P ms)))
              s.sh.feedback)) := by
  unfold Sys.step
  simp only [write_eq hP (IdxInv.prodWF hv hI), hI.feedbackHead, hI.prodCap, hI.prodSize]
  split <;> rfl

theorem step_read_eq {P : Platform} (hP : P.WF) {ms : Nat} (hv : validMessageSize P ms)
    {s : Sys} (hI : Sys.IdxInv P ms s) (buf : Bytes) :
    s.step P (Op.read buf) =
      if s.prod.head = s.cons.head then
        ((Result.NotFound, buf), s)
      else
        ((Result.Success,
            fillBuffer buf ms (ioRead s.sh.data ((s.cons.head + 1) * ms) ms)),
          Sys.mk s.prod
            { s.cons with head := (s.cons.head + 1) % computeMaximumMessages P ms }
            (Shared.mk s.sh.data
              (ioWrite s.sh.feedback 0 P.sizeofRingHead
                (encodeSize P.sizeofRingHead
                  ((s.cons.head + 1) % computeMaximumMessages P ms))))) := by
  unfold Sys.step
  simp only [read_eq hP (IdxInv.consWF hv hI), hI.dataHead, hI.consCap, hI.consSize]
  split <;> rfl

/-! ## One call preserves the invariants -/

theorem ioRead_ioWrite_same_len (r : Region) (off len : Nat) (buf : Bytes)
    (h : buf.length = len) : ioRead (ioWrite r off len buf) off len = buf := by
  subst h
  exact ioRead_ioWrite_same r off buf

theorem IdxInv.step {P : Platform} (hP : P.WF) {ms : Nat} (hv : validMessageSize P ms)
    {s : Sys} (hI : Sys.IdxInv P ms s) (op : Op) : Sys.IdxInv P ms (s.step P op).2 := by
  have hcapM := (cursor_no_wrap hP hv hI.prodHead).2.2
  have hpos : 0 < computeMaximumMessages P ms := by have := hI.prodHead; omega
  cases op with
  | write msg =>
    rw [step_write_eq hP hv hI]
    split
    · exact hI
    · have hlt := Nat.mod_lt (s.prod.head + 1) hpos
      exact ⟨hI.prodSize, hI.prodCap, hI.consSize, hI.consCap, hlt, hI.consHead,
        headIndex_ioWrite P _ _ (by omega), hI.feedbackHead⟩
  | read buf =>
    rw [step_read_eq hP hv hI]
    split
    · exact hI
    · have hlt := Nat.mod_lt (s.cons.head + 1) hpos
      exact ⟨hI.prodSize, hI.prodCap, hI.consSize, hI.consCap, hI.prodHead, hlt,
        hI.dataHead, headIndex_ioWrite P _ _ (by omega)⟩

theorem Inv.write_full {P : Platform} (hP : P.WF) {ms : Nat} (hv : validMessageSize P ms)
    {s : Sys} {pending : List Bytes} (hI : Sys.Inv P ms s pending)
    (hfull : pending.length + 1 = computeMaximumMessages P ms) (msg : Bytes) :
    s.step P (Op.write msg) = ((Result.ChannelFull, msg), s) := by
  have hfullc : (s.prod.head + 1) % computeMaximumMessages P ms = s.cons.head := by
    rw [hI.ahead]
    exact (next_eq_iff hI.idx.consHead hI.len).mpr hfull
  rw [step_write_eq hP hv hI.idx, if_pos hfullc]

theorem Inv.write_success {P : Platform} (hP : P.WF) {ms : Nat} (hv : validMessageSize P ms)
    {s : Sys} {pending : List Bytes} (hI : Sys.Inv P ms s pending)
    (hroom : pending.length + 1 < computeMaximumMessages P ms)
    {msg : Bytes} (hm : msg.length = ms) :
    (s.step P (Op.write msg)).1 = (Result.Success, msg) ∧
    Sys.Inv P ms (s.step P (Op.write msg)).2 (pending ++ [msg]) := by
  have hne : ¬ (s.prod.head + 1) % computeMaximumMessages P ms = s.cons.head := by
    rw [hI.ahead, next_eq_iff hI.idx.consHead hI.len]
    omega
  have hidx := IdxInv.step hP hv hI.idx (Op.write msg)
  rw [step_write_eq hP hv hI.idx, if_neg hne] at hidx ⊢
  refine ⟨rfl, hidx, ?_, ?_, ?_⟩
  · rw [List.length_append, List.length_singleton]; exact hroom
  · show (s.prod.head + 1) % computeMaximumMessages P ms
      = (s.cons.head + (pending ++ [msg]).length) % computeMaximumMessages P ms
    rw [List.length_append, List.length_singleton, hI.ahead, Nat.mod_add_mod, Nat.add_assoc]
  · intro i hi
    show ioRead (ioWrite (ioWrite s.sh.data ((s.prod.head + 1) * ms) ms msg) 0
        P.sizeofRingHead _)
      (((s.cons.head + i) % computeMaximumMessages P ms + 1) * ms) ms = (pending ++ [msg])[i]
    have hW : P.sizeofRingHead ≤ ms := hv.1
    have hoff : ms ≤ ((s.cons.head + i) % computeMaximumMessages P ms + 1) * ms :=
      Nat.le_mul_of_pos_left ms (by omega)
    rw [ioRead_ioWrite_disjoint _ _ _ _ _ _ (Or.inr (by omega))]
    rw [List.length_append, List.length_singleton] at hi
    by_cases hik : i < pending.length
    · have hne2 : (s.cons.head + i) % computeMaximumMessages P ms ≠ s.prod.head := by
        intro h
        rw [hI.ahead] at h
        have := mod_add_inj (by omega) hI.len h
        omega
      rw [ioRead_ioWrite_disjoint _ _ _ _ _ _ (slot_disjoint hne2), hI.slots i hik,
        List.getElem_append_left hik]
    · have hik2 : i = pending.length := by omega
      subst hik2
      rw [← hI.ahead, ioRead_ioWrite_same_len _ _ _ _ hm]
      simp

theorem Inv.read_empty {P : Platform} (hP : P.WF) {ms : Nat} (hv : validMessageSize P ms)
    {s : Sys} (hI : Sys.Inv P ms s []) (buf : Bytes) :
    s.step P (Op.read buf) = ((Result.NotFound, buf), s) := by
  have he : s.prod.head = s.cons.head := by
    rw [hI.ahead, List.length_nil, Nat.add_zero, Nat.mod_eq_of_lt hI.idx.consHead]
  rw [step_read_eq hP hv hI.idx, if_pos he]

theorem Inv.read_success {P : Platform} (hP : P.WF) {ms : Nat} (hv : validMessageSize P ms)
    {s : Sys} {m : Bytes} {rest : List Bytes} (hI : Sys.Inv P ms s (m :: rest))
    (buf : Bytes) :
    (s.step P (Op.read buf)).1 = (Result.Success, fillBuffer buf ms m) ∧
    Sys.Inv P ms (s.step P (Op.read buf)).2 rest := by
  have hlen := hI.len
  rw [List.length_cons] at hlen
  have hne : ¬ s.prod.head = s.cons.head := by
    rw [hI.ahead, ahead_eq_iff hI.idx.consHead hI.len, List.length_cons]
    omega
  have hidx := IdxInv.step hP hv hI.idx (Op.read buf)
  have h0 := hI.slots 0 (by simp)
  simp only [Nat.add_zero, Nat.mod_eq_of_lt hI.idx.consHead, List.getElem_cons_zero] at h0
  rw [step_read_eq hP hv hI.idx, if_neg hne] at hidx ⊢
  refine ⟨?_, hidx, by omega, ?_, ?_⟩
  · show (Result.Success, fillBuffer buf ms (ioRead s.sh.data ((s.cons.head + 1) * ms) ms))
      = (Result.Success, fillBuffer buf ms m)
    rw [h0]
  · show s.prod.head
      = ((s.cons.head + 1) % computeMaximumMessages P ms + rest.length)
          % computeMaximumMessages P ms
    rw [hI.ahead, Nat.mod_add_mod, List.length_cons]
    congr 1
    omega
  · intro i hi
    show ioRead s.sh.data
      ((((s.cons.head + 1) % computeMaximumMessages P ms + i)
          % computeMaximumMessages P ms + 1) * ms) ms = rest[i]
    have h1 := hI.slots (i + 1) (by rw [List.length_cons]; omega)
    rw [List.getElem_cons_succ] at h1
    rw [Nat.mod_add_mod, ← h1]
    congr 4
    omega

/-! ## The fresh pair and whole runs -/

theorem fresh_eq {P : Platform} (hP : P.WF) {ms : Nat} (hv : validMessageSize P ms) :
    Sys.fresh P ms = some (Sys.mk
      (MemoryChannel.mk Mode.Producer ms (computeMaximumMessages P ms) 0)
      (MemoryChannel.mk Mode.Consumer ms (computeMaximumMessages P ms) 0)
      Shared.zero) := by
  unfold Sys.fresh
  rw [new_eq_some hP hv]
  simp only
  rw [new_eq_some hP hv]

theorem fresh_inv {P : Platform} (hP : P.WF) {ms : Nat} (hv : validMessageSize P ms)
    {s0 : Sys} (h : Sys.fresh P ms = some s0) : Sys.Inv P ms s0 [] := by
  rw [fresh_eq hP hv] at h
  cases h
  obtain ⟨_, hq, hc, _⟩ := capacity_facts hP hv
  have hpos : 0 < computeMaximumMessages P ms := by omega
  refine ⟨⟨rfl, rfl, rfl, rfl, hpos, hpos, headIndex_zero P, headIndex_zero P⟩, hpos, ?_, ?_⟩
  · show 0 = (0 + 0) % computeMaximumMessages P ms
    simp
  · intro i hi
    simp at hi

theorem run_append (P : Platform) (s : Sys) (a b : List Op) :
    Sys.run P s (a ++ b) =
      ((Sys.run P s a).1 ++ (Sys.run P (Sys.run P s a).2 b).1,
        (Sys.run P (Sys.run P s a).2 b).2) := by
  induction a generalizing s with
  | nil => rfl
  | cons op a ih => simp [Sys.run, ih]

theorem run_idx {P : Platform} (hP : P.WF) {ms : Nat} (hv : validMessageSize P ms)
    (ops : List Op) {s : Sys} (hI : Sys.IdxInv P ms s) :
    Sys.IdxInv P ms (Sys.run P s ops).2 := by
  induction ops generalizing s with
  | nil => exact hI
  | cons op ops ih => exact ih (IdxInv.step hP hv hI op)

theorem Inv.pending_length {P : Platform} {ms : Nat} {s : Sys} {pending : List Bytes}
    (hI : Sys.Inv P ms s pending) : ∀ m ∈ pending, m.length = ms := by
  intro m hm
  obtain ⟨i, hi, rfl⟩ := List.getElem_of_mem hm
  rw [← hI.slots i hi, ioRead_length]

theorem fillBuffer_take (buf : Bytes) (ms : Nat) (m : Bytes) (hm : m.length = ms) :
    (fillBuffer buf ms m).take ms = m := by
  unfold fillBuffer
  rw [← hm, List.take_left]

theorem fillBuffer_exact (buf : Bytes) (ms : Nat) (m : Bytes) (hb : buf.length = ms) :
    fillBuffer buf ms m = m := by
  unfold fillBuffer
  rw [List.drop_of_length_le (by omega), List.append_nil]

theorem run_writes {P : Platform} (hP : P.WF) {ms : Nat} (hv : validMessageSize P ms)
    (msgs : List Bytes) {s : Sys} {pending : List Bytes} (hI : Sys.Inv P ms s pending)
    (hm : ∀ m ∈ msgs, m.length = ms)
    (hroom : pending.length + msgs.length < computeMaximumMessages P ms) :
    (Sys.run P s (msgs.map Op.write)).1 = msgs.map (fun m => (Result.Success, m)) ∧
    Sys.Inv P ms (Sys.run P s (msgs.map Op.write)).2 (pending ++ msgs) := by
  induction msgs generalizing s pending with
  | nil => simpa [Sys.run] using hI
  | cons m msgs ih =>
    rw [List.length_cons] at hroom
    obtain ⟨h1, h2⟩ := Inv.write_success hP hv hI (by omega) (hm m (List.mem_cons_self _ _))
    obtain ⟨h3, h4⟩ := ih h2 (fun x hx => hm x (List.mem_cons_of_mem _ hx))
      (by rw [List.length_append, List.length_singleton]; omega)
    refine ⟨?_, ?_⟩
    · simp only [List.map_cons, Sys.run, h1, h3]
    · simpa [Sys.run] using h4

theorem run_reads {P : Platform} (hP : P.WF) {ms : Nat} (hv : validMessageSize P ms)
    (pending : List Bytes) {s : Sys} (hI : Sys.Inv P ms s pending)
    (bufs : List Bytes) (hb : bufs.length = pending.length)
    (hbl : ∀ b ∈ bufs, b.length = ms) :
    (Sys.run P s (bufs.map Op.read)).1 = pending.map (fun m => (Result.Success, m)) ∧
    Sys.Inv P ms (Sys.run P s (bufs.map Op.read)).2 [] := by
  induction pending generalizing s bufs with
  | nil =>
    have : bufs = [] := List.length_eq_zero.mp hb
    subst this
    simpa [Sys.run] using hI
  | cons m rest ih =>
    cases bufs with
    | nil => simp at hb
    | cons b bufs =>
      obtain ⟨h1, h2⟩ := Inv.read_success hP hv hI b
      rw [fillBuffer_exact b ms m (hbl b (List.mem_cons_self _ _))] at h1
      obtain ⟨h3, h4⟩ := ih h2 bufs (by simpa using hb)
        (fun x hx => hbl x (List.mem_cons_of_mem _ hx))
      refine ⟨?_, ?_⟩
      · simp only [List.map_cons, Sys.run, h1, h3]
      · simpa [Sys.run] using h4

theorem run_inv {P : Platform} (hP : P.WF) {ms : Nat} (hv : validMessageSize P ms)
    (ops : List Op) {s : Sys} {pending : List Bytes} (hI : Sys.Inv P ms s pending)
    (hops : validOps ms ops) :
    ∃ pending1, Sys.Inv P ms (Sys.run P s ops).2 pending1 ∧
      pending ++ accepted ops (Sys.run P s ops).1
        = delivered ms ops (Sys.run P s ops).1 ++ pending1 := by
  induction ops generalizing s pending with
  | nil => exact ⟨pending, hI, by simp [Sys.run, accepted, delivered]⟩
  | cons op ops ih =>
    have hops1 : validOps ms ops := fun op h => hops op (List.mem_cons_of_mem _ h)
    cases op with
    | write msg =>
      have hm : msg.length = ms := hops (Op.write msg) (List.mem_cons_self _ _)
      by_cases hroom : pending.length + 1 < computeMaximumMessages P ms
      · obtain ⟨h1, h2⟩ := Inv.write_success hP hv hI hroom hm
        obtain ⟨q, hq1, hq2⟩ := ih h2 hops1
        refine ⟨q, hq1, ?_⟩
        simp only [Sys.run, h1, accepted, delivered]
        rw [← hq2]
        simp
      · have hfull : pending.length + 1 = computeMaximumMessages P ms := by
          have := hI.len; omega
        have h1 := Inv.write_full hP hv hI hfull msg
        obtain ⟨q, hq1, hq2⟩ := ih hI hops1
        refine ⟨q, ?_, ?_⟩
        · simpa only [Sys.run, h1] using hq1
        · simpa only [Sys.run, h1, accepted, delivered] using hq2
    | read buf =>
      cases pending with
      | nil =>
        have h1 := Inv.read_empty hP hv hI buf
        obtain ⟨q, hq1, hq2⟩ := ih hI hops1
        refine ⟨q, ?_, ?_⟩
        · simpa only [Sys.run, h1] using hq1
        · simpa only [Sys.run, h1, accepted, delivered] using hq2
      | cons m rest =>
        have hml : m.length = ms := Inv.pending_length hI m (List.mem_cons_self _ _)
        obtain ⟨h1, h2⟩ := Inv.read_success hP hv hI buf
        obtain ⟨q, hq1, hq2⟩ := ih h2 hops1
        refine ⟨q, hq1, ?_⟩
        simp only [Sys.run, h1, accepted, delivered, fillBuffer_take buf ms m hml]
        rw [List.cons_append, List.cons_append, hq2]

theorem readMany_empty (P : Platform) (c : MemoryChannel) (sh : Shared)
    (h : headIndex P sh.data = c.head) (bufs : List Bytes) :
    readMany P c sh bufs = (bufs.map (fun b => (Result.NotFound, b)), c, sh) := by
  induction bufs with
  | nil => rfl
  | cons b bufs ih =>
    have hr : c.read P sh b = (Result.NotFound, c, sh, b) := by
      unfold MemoryChannel.read
      simp only [h, if_true]
    simp only [readMany, hr, ih, List.map_cons]

/-! ## The claims -/

/-- C1 (round trip). For every valid message size, every list of `N ≤ capacity - 1`
messages of `messageSize` bytes and `N` caller buffers of `messageSize` bytes: both
constructors succeed, and on the fresh pair over zero-filled pages the `N` writes
followed by the `N` reads all return `Success`, the reads leaving the written messages in
the buffers in the order written. -/
theorem round_trip (P : Platform) (hP : P.WF) (ms : Nat) (hv : validMessageSize P ms)
    (msgs bufs : List Bytes)
    (hN : msgs.length ≤ computeMaximumMessages P ms - 1)
    (hm : ∀ m ∈ msgs, m.length = ms)
    (hb : bufs.length = msgs.length) (hbl : ∀ b ∈ bufs, b.length = ms) :
    ∃ s0, Sys.fresh P ms = some s0 ∧
      (Sys.run P s0 (msgs.map Op.write ++ bufs.map Op.read)).1
        = msgs.map (fun m => (Result.Success, m))
            ++ msgs.map (fun m => (Result.Success, m)) := by
  refine ⟨_, fresh_eq hP hv, ?_⟩
  have h0 := fresh_inv hP hv (fresh_eq hP hv)
  have hpos := h0.len
  obtain ⟨h1, h2⟩ := run_writes hP hv msgs h0 hm (by
    rw [List.length_nil] at hpos ⊢; omega)
  rw [List.nil_append] at h2
  obtain ⟨h3, _⟩ := run_reads hP hv msgs h2 bufs hb hbl
  rw [run_append, h1, h3]

theorem round_trip_witness :
    refPlatform.WF ∧ validMessageSize refPlatform 64 ∧
    ∃ s0, Sys.fresh refPlatform 64 = some s0 ∧
      (Sys.run refPlatform s0
        ([List.replicate 64 1, List.replicate 64 2].map Op.write
          ++ [List.replicate 64 0, List.replicate 64 0].map Op.read)).1
        = [List.replicate 64 1, List.replicate 64 2].map (fun m => (Result.Success, m))
            ++ [List.replicate 64 1, List.replicate 64 2].map
                (fun m => (Result.Success, m)) :=
  ⟨by decide, by decide,
    round_trip refPlatform (by decide) 64 (by decide)
      [List.replicate 64 1, List.replicate 64 2] [List.replicate 64 0, List.replicate 64 0]
      (by decide) (by simp) rfl (by simp)⟩

/-- C2 (FIFO under wraparound). For every valid message size and every finite sequence
of producer writes (of `messageSize`-byte messages) and consumer reads in any order on
the fresh pair: the messages returned by the successful reads form a prefix of the
messages accepted by the successful writes; the accepted messages not yet returned are
still intact in the data page, since reading that many more times returns exactly
them, in order, each call with `Success`. -/
theorem fifo_wraparound (P : Platform) (hP : P.WF) (ms : Nat) (hv : validMessageSize P ms)
    (ops : List Op) (hops : validOps ms ops) :
    ∃ s0, Sys.fresh P ms = some s0 ∧
      delivered ms ops (Sys.run P s0 ops).1 <+: accepted ops (Sys.run P s0 ops).1 ∧
      ∃ pending,
        accepted ops (Sys.run P s0 ops).1
          = delivered ms ops (Sys.run P s0 ops).1 ++ pending ∧
        ∀ bufs : List Bytes, bufs.length = pending.length → (∀ b ∈ bufs, b.length = ms) →
          (Sys.run P (Sys.run P s0 ops).2 (bufs.map Op.read)).1
            = pending.map (fun m => (Result.Success, m)) := by
  refine ⟨_, fresh_eq hP hv, ?_⟩
  have h0 := fresh_inv hP hv (fresh_eq hP hv)
  obtain ⟨q, hq1, hq2⟩ := run_inv hP hv ops h0 hops
  rw [List.nil_append] at hq2
  refine ⟨⟨q, hq2.symm⟩, q, hq2, ?_⟩
  intro bufs hb hbl
  exact (run_reads hP hv q hq1 bufs hb hbl).1

theorem pairOps_valid (ms : Nat) : validOps ms (pairOps ms) := by
  intro op hop
  unfold pairOps at hop
  rw [List.mem_flatMap] at hop
  obtain ⟨i, _, hi⟩ := hop
  simp only [List.mem_cons, List.mem_singleton, List.not_mem_nil, or_false] at hi
  rcases hi with rfl | rfl
  · exact List.length_replicate _ _
  · trivial

theorem fifo_wraparound_witness :
    refPlatform.WF ∧ validMessageSize refPlatform 512 ∧
    computeMaximumMessages refPlatform 512 = 7 ∧ validOps 512 (pairOps 512) ∧
    ∃ s0, Sys.fresh refPlatform 512 = some s0 ∧
      delivered 512 (pairOps 512) (Sys.run refPlatform s0 (pairOps 512)).1
        <+: accepted (pairOps 512) (Sys.run refPlatform s0 (pairOps 512)).1 ∧
      ∃ pending,
        accepted (pairOps 512) (Sys.run refPlatform s0 (pairOps 512)).1
          = delivered 512 (pairOps 512) (Sys.run refPlatform s0 (pairOps 512)).1
              ++ pending ∧
        ∀ bufs : List Bytes, bufs.length = pending.length → (∀ b ∈ bufs, b.length = 512) →
          (Sys.run refPlatform (Sys.run refPlatform s0 (pairOps 512)).2
              (bufs.map Op.read)).1
            = pending.map (fun m => (Result.Success, m)) :=
  ⟨by decide, by decide, by decide, pairOps_valid 512,
    fifo_wraparound refPlatform (by decide) 512 (by decide) (pairOps 512)
      (pairOps_valid 512)⟩

theorem run_full_read_write {P : Platform} (hP : P.WF) {ms : Nat}
    (hv : validMessageSize P ms) {s : Sys} {m : Bytes} {rest : List Bytes}
    (hI : Sys.Inv P ms s (m :: rest))
    (hfull : rest.length + 1 + 1 = computeMaximumMessages P ms)
    (extra1 extra2 buf : Bytes) (he : extra2.length = ms) :
    (Sys.run P s [Op.write extra1, Op.read buf, Op.write extra2]).1.map Prod.fst
      = [Result.ChannelFull, Result.Success, Result.Success] := by
  have h3 := Inv.write_full hP hv hI (by rw [List.length_cons]; exact hfull) extra1
  obtain ⟨h4, h5⟩ := Inv.read_success hP hv hI buf
  obtain ⟨h6, _⟩ := Inv.write_success hP hv h5 (by omega) he
  simp only [Sys.run, h3, h4, h6, List.map]

/-- Fullness boundary when the capacity is at least 2: on the fresh pair the first
`capacity - 1` writes succeed, the next write is rejected with `ChannelFull`, the
consumer's read succeeds, and the write after it succeeds. -/
theorem fullness_boundary_of_two_le (P : Platform) (hP : P.WF) (ms : Nat)
    (hv : validMessageSize P ms) (hcap : 2 ≤ computeMaximumMessages P ms)
    (msgs : List Bytes) (hlen : msgs.length = computeMaximumMessages P ms - 1)
    (hm : ∀ m ∈ msgs, m.length = ms) (extra1 extra2 buf : Bytes)
    (he : extra2.length = ms) :
    ∃ s0, Sys.fresh P ms = some s0 ∧
      (Sys.run P s0
          (msgs.map Op.write ++ [Op.write extra1, Op.read buf, Op.write extra2])).1.map
          Prod.fst
        = List.replicate (computeMaximumMessages P ms - 1) Result.Success
            ++ [Result.ChannelFull, Result.Success, Result.Success] := by
  refine ⟨_, fresh_eq hP hv, ?_⟩
  have h0 := fresh_inv hP hv (fresh_eq hP hv)
  obtain ⟨h1, h2⟩ := run_writes hP hv msgs h0 hm (by rw [List.length_nil]; omega)
  rw [List.nil_append] at h2
  rw [run_append, h1, List.map_append, List.map_map]
  have hmap : List.map (Prod.fst ∘ fun m : Bytes => (Result.Success, m)) msgs
      = List.replicate (computeMaximumMessages P ms - 1) Result.Success := by
    rw [← hlen]
    exact List.eq_replicate_iff.mpr
      ⟨by simp, fun b hb => by
        obtain ⟨x, _, rfl⟩ := List.mem_map.mp hb
        rfl⟩
  rw [hmap]
  congr 1
  generalize (Sys.run P _ (msgs.map Op.write)).2 = s1 at h2
  cases msgs with
  | nil => rw [List.length_nil] at hlen; omega
  | cons m rest =>
    rw [List.length_cons] at hlen
    exact run_full_read_write hP hv h2 (by omega) extra1 extra2 buf he

/-- C3 (exact fullness boundary), evaluated at `PAGESIZE = 4096`, `sizeof(RingHead) = 4`,
`messageSize = 2000`: both assertions pass and the capacity is 1, so `capacity - 1 = 0`
writes precede the rejected one; the write is rejected with `ChannelFull`, the read
finds nothing, and the write after the read is rejected again. -/
theorem fullness_boundary_capacity_one :
    validMessageSize refPlatform 2000 ∧ computeMaximumMessages refPlatform 2000 = 1 ∧
    (Sys.fresh refPlatform 2000).map
      (fun s0 => (Sys.run refPlatform s0
        [Op.write (List.replicate 2000 1), Op.read (List.replicate 2000 0),
          Op.write (List.replicate 2000 2)]).1.map Prod.fst)
      = some [Result.ChannelFull, Result.NotFound, Result.ChannelFull] := by
  refine ⟨by decide, by decide, ?_⟩
  decide

/-- C7 (the size constraints give a usable slot), evaluated at `PAGESIZE = 4096`,
`sizeof(RingHead) = 4`, `messageSize = 2000`: both assertions pass, both constructors
succeed, and the first write on the fresh pair returns `ChannelFull`. -/
theorem first_write_capacity_one :
    validMessageSize refPlatform 2000 ∧
    (Sys.fresh refPlatform 2000).map
      (fun s0 => (s0.prod.write refPlatform s0.sh (List.replicate 2000 1)).1)
      = some Result.ChannelFull := by
  refine ⟨by decide, ?_⟩
  decide

/-- With capacity at least 2 the first write on the fresh pair returns `Success` and the
consumer's first read returns `Success` with the message in the buffer. -/
theorem first_write_of_two_le (P : Platform) (hP : P.WF) (ms : Nat)
    (hv : validMessageSize P ms) (hcap : 2 ≤ computeMaximumMessages P ms)
    (msg buf : Bytes) (hm : msg.length = ms) (hb : buf.length = ms) :
    ∃ s0, Sys.fresh P ms = some s0 ∧
      (Sys.run P s0 [Op.write msg, Op.read buf]).1
        = [(Result.Success, msg), (Result.Success, msg)] := by
  refine ⟨_, fresh_eq hP hv, ?_⟩
  have h0 := fresh_inv hP hv (fresh_eq hP hv)
  obtain ⟨h1, h2⟩ := Inv.write_success hP hv h0 (by rw [List.length_nil]; omega) hm
  rw [List.nil_append] at h2
  obtain ⟨h3, _⟩ := Inv.read_success hP hv h2 buf
  rw [fillBuffer_exact buf ms msg hb] at h3
  simp only [Sys.run, h1, h3]

theorem run_capacity_one {P : Platform} (hP : P.WF) {ms : Nat}
    (hv : validMessageSize P ms) (hcap : computeMaximumMessages P ms = 1)
    {s : Sys} (hI : Sys.Inv P ms s []) (ops : List Op) :
    accepted ops (Sys.run P s ops).1 = [] ∧ delivered ms ops (Sys.run P s ops).1 = [] := by
  induction ops with
  | nil => exact ⟨rfl, rfl⟩
  | cons op ops ih =>
    cases op with
    | write msg =>
      have h1 := Inv.write_full hP hv hI (by rw [hcap]; rfl) msg
      simpa only [Sys.run, h1, accepted, delivered] using ih
    | read buf =>
      have h1 := Inv.read_empty hP hv hI buf
      simpa only [Sys.run, h1, accepted, delivered] using ih

/-- With capacity 1 no write on the fresh pair is ever accepted and no read ever returns
a message, whatever the sequence of calls. -/
theorem capacity_one_dead (P : Platform) (hP : P.WF) (ms : Nat)
    (hv : validMessageSize P ms) (hcap : computeMaximumMessages P ms = 1)
    (ops : List Op) :
    ∃ s0, Sys.fresh P ms = some s0 ∧
      accepted ops (Sys.run P s0 ops).1 = [] ∧ delivered ms ops (Sys.run P s0 ops).1 = [] :=
  ⟨_, fresh_eq hP hv, run_capacity_one hP hv hcap (fresh_inv hP hv (fresh_eq hP hv)) ops⟩

/-- C4 (empty read is `NotFound` and a no-op). Whenever the index stored at offset 0 of
the data page equals the object's local head, `read` returns `NotFound` and leaves the
object, both pages and the caller's buffer as they were; this is the case for a freshly
constructed object over zero-filled pages; and any number of consecutive reads from such
a state all return `NotFound` and change nothing. -/
theorem read_empty_noop (P : Platform) :
    (∀ (c : MemoryChannel) (sh : Shared) (buf : Bytes), headIndex P sh.data = c.head →
      c.read P sh buf = (Result.NotFound, c, sh, buf)) ∧
    (∀ (mode : Mode) (ms : Nat) (c : MemoryChannel) (sh : Shared) (buf : Bytes),
      MemoryChannel.new P mode ms Shared.zero = some (c, sh) →
      c.read P sh buf = (Result.NotFound, c, Shared.zero, buf)) ∧
    (∀ (c : MemoryChannel) (sh : Shared) (bufs : List Bytes), headIndex P sh.data = c.head →
      readMany P c sh bufs = (bufs.map (fun b => (Result.NotFound, b)), c, sh)) := by
  have hgen : ∀ (c : MemoryChannel) (sh : Shared) (buf : Bytes),
      headIndex P sh.data = c.head → c.read P sh buf = (Result.NotFound, c, sh, buf) := by
    intro c sh buf h
    unfold MemoryChannel.read
    simp only [h, if_true]
  refine ⟨hgen, ?_, fun c sh bufs h => readMany_empty P c sh h bufs⟩
  intro mode ms c sh buf hnew
  unfold MemoryChannel.new at hnew
  split at hnew
  · cases hnew
  · split at hnew
    · cases hnew
    · split at hnew
      · cases hnew
      · cases hnew
        exact hgen _ _ buf (headIndex_zero P)

theorem read_empty_noop_witness :
    MemoryChannel.new refPlatform Mode.Consumer 64 Shared.zero
      = some (MemoryChannel.mk Mode.Consumer 64 63 0, Shared.zero) ∧
    (MemoryChannel.mk Mode.Consumer 64 63 0).read refPlatform Shared.zero
        (List.replicate 64 9)
      = (Result.NotFound, MemoryChannel.mk Mode.Consumer 64 63 0, Shared.zero,
          List.replicate 64 9) :=
  ⟨rfl, (read_empty_noop refPlatform).2.1 Mode.Consumer 64 _ _ (List.replicate 64 9) rfl⟩

/-- C5 (`ChannelFull` is atomic). For every object, pages and message: if `write` returns
`ChannelFull` then the object (so its local head) and both pages (so every byte of the
data page and of the feedback page) are exactly as before the call; and for a constructed
object, `write` returns `ChannelFull` exactly when `(localHead + 1) mod capacity` equals
the index stored at offset 0 of the feedback page. -/
theorem channel_full_atomic (P : Platform) (c : MemoryChannel) (sh : Shared) (msg : Bytes) :
    ((c.write P sh msg).1 = Result.ChannelFull →
      (c.write P sh msg).2.1 = c ∧ (c.write P sh msg).2.2 = sh) ∧
    (P.WF → c.WF P →
      ((c.write P sh msg).1 = Result.ChannelFull ↔
        (c.head + 1) % c.maximumMessages = headIndex P sh.feedback)) := by
  constructor
  · intro h
    by_cases hf : sizeAdd P c.head 1 % c.maximumMessages = headIndex P sh.feedback
    · simp [MemoryChannel.write, hf]
    · simp [MemoryChannel.write, hf] at h
  · intro hP hc
    rw [write_eq hP hc]
    split
    · rename_i h; simp [h]
    · rename_i h; simp [h]

theorem channel_full_atomic_witness :
    refPlatform.WF ∧ (MemoryChannel.mk Mode.Producer 64 63 62).WF refPlatform ∧
    (MemoryChannel.mk Mode.Producer 64 63 62).write refPlatform Shared.zero
        (List.replicate 64 5)
      = (Result.ChannelFull, MemoryChannel.mk Mode.Producer 64 63 62, Shared.zero) := by
  have h := channel_full_atomic refPlatform (MemoryChannel.mk Mode.Producer 64 63 62)
    Shared.zero (List.replicate 64 5)
  have hP : refPlatform.WF := by decide
  have hc : (MemoryChannel.mk Mode.Producer 64 63 62).WF refPlatform := by
    refine ⟨by decide, by decide, by decide⟩
  have hfull := (h.2 hP hc).mpr (by decide)
  obtain ⟨h1, h2⟩ := h.1 hfull
  exact ⟨hP, hc, Prod.ext hfull (Prod.ext h1 h2)⟩

/-- C6 (head index range). For every valid message size, in every state reachable from
the fresh pair by any sequence of writes and reads, the producer's local head, the
consumer's local head, the index in the data page's head record and the index in the
feedback page's head record are all below the capacity, which is the value both objects
hold in `m_maximumMessages`. -/
theorem head_index_range (P : Platform) (hP : P.WF) (ms : Nat) (hv : validMessageSize P ms)
    (s : Sys) (hr : Sys.Reachable P ms s) :
    s.prod.maximumMessages = computeMaximumMessages P ms ∧
    s.cons.maximumMessages = computeMaximumMessages P ms ∧
    s.prod.head < computeMaximumMessages P ms ∧
    s.cons.head < computeMaximumMessages P ms ∧
    headIndex P s.sh.data < computeMaximumMessages P ms ∧
    headIndex P s.sh.feedback < computeMaximumMessages P ms := by
  obtain ⟨s0, ops, h0, rfl⟩ := hr
  have hI := run_idx hP hv ops (fresh_inv hP hv h0).idx
  refine ⟨hI.prodCap, hI.consCap, hI.prodHead, hI.consHead, ?_, ?_⟩
  · rw [hI.dataHead]; exact hI.prodHead
  · rw [hI.feedbackHead]; exact hI.consHead

theorem pairState_reachable : Sys.Reachable refPlatform 512 pairState :=
  ⟨_, pairOps 512, fresh_eq (by decide) (by decide), rfl⟩

theorem head_index_range_witness :
    refPlatform.WF ∧ validMessageSize refPlatform 512 ∧
    Sys.Reachable refPlatform 512 pairState ∧
    pairState.prod.maximumMessages = computeMaximumMessages refPlatform 512 ∧
    pairState.cons.maximumMessages = computeMaximumMessages refPlatform 512 ∧
    pairState.prod.head < computeMaximumMessages refPlatform 512 ∧
    pairState.cons.head < computeMaximumMessages refPlatform 512 ∧
    headIndex refPlatform pairState.sh.data < computeMaximumMessages refPlatform 512 ∧
    headIndex refPlatform pairState.sh.feedback < computeMaximumMessages refPlatform 512 :=
  ⟨by decide, by decide, pairState_reachable,
    head_index_range refPlatform (by decide) 512 (by decide) pairState pairState_reachable⟩

/-- C8 (capacity derivation). For every message size accepted by the two assertions, the
value the initialiser computes in unsigned `Size` arithmetic is `PAGESIZE / messageSize - 1`
as an integer: the quotient is at least 1, so the subtraction does not wrap, and the
capacity is at least 1. -/
theorem capacity_derivation (P : Platform) (hP : P.WF) (ms : Nat)
    (hv : validMessageSize P ms) :
    1 ≤ P.PAGESIZE / ms ∧
    ((computeMaximumMessages P ms : Nat) : Int) = ((P.PAGESIZE / ms : Nat) : Int) - 1 ∧
    computeMaximumMessages P ms = P.PAGESIZE / ms - 1 ∧
    1 ≤ computeMaximumMessages P ms := by
  obtain ⟨_, hq, hc, _⟩ := capacity_facts hP hv
  refine ⟨by omega, ?_, hc, by omega⟩
  rw [hc]
  omega

theorem capacity_derivation_witness :
    refPlatform.WF ∧ validMessageSize refPlatform 64 ∧
    1 ≤ refPlatform.PAGESIZE / 64 ∧
    ((computeMaximumMessages refPlatform 64 : Nat) : Int)
      = ((refPlatform.PAGESIZE / 64 : Nat) : Int) - 1 ∧
    computeMaximumMessages refPlatform 64 = refPlatform.PAGESIZE / 64 - 1 ∧
    1 ≤ computeMaximumMessages refPlatform 64 :=
  ⟨by decide, by decide, capacity_derivation refPlatform (by decide) 64 (by decide)⟩

/-- C9 (single writer per page). For every object, pages and buffer, `write` leaves the
feedback page unchanged whether it returns `Success` or `ChannelFull`, and `read` leaves
the data page unchanged whether it returns `Success` or `NotFound`. -/
theorem single_writer (P : Platform) (c : MemoryChannel) (sh : Shared) (buf : Bytes) :
    (c.write P sh buf).2.2.feedback = sh.feedback ∧
    (c.read P sh buf).2.2.1.data = sh.data := by
  constructor
  · dsimp only [MemoryChannel.write]
    split <;> rfl
  · dsimp only [MemoryChannel.read]
    split <;> rfl

/-- C10 (construction contract). On a platform where `Size` has at least one byte and can
hold `PAGESIZE`, construction aborts exactly when `messageSize < sizeof(RingHead)` or
`messageSize ≥ PAGESIZE / 2` (zero included); when it succeeds the local head is 0, the
capacity is `PAGESIZE / messageSize - 1`, the pages are as they were, and the other mode
yields the same head and capacity. -/
theorem construction_contract (P : Platform) (hP : P.WF) (mode : Mode) (ms : Nat)
    (sh : Shared) :
    (MemoryChannel.new P mode ms sh = none ↔
      (ms < P.sizeofRingHead ∨ ms ≥ P.PAGESIZE / 2)) ∧
    (∀ c sh1, MemoryChannel.new P mode ms sh = some (c, sh1) →
      c.head = 0 ∧ c.maximumMessages = P.PAGESIZE / ms - 1 ∧ c.messageSize = ms ∧
      c.mode = mode ∧ sh1.data = sh.data ∧ sh1.feedback = sh.feedback ∧
      ∀ mode2, ∃ c2, MemoryChannel.new P mode2 ms sh = some (c2, sh1) ∧
        c2.head = c.head ∧ c2.maximumMessages = c.maximumMessages) := by
  by_cases hv : validMessageSize P ms
  · have hc := (capacity_facts hP hv).2.2.1
    constructor
    · rw [new_eq_some hP hv]
      obtain ⟨h1, h2⟩ := hv
      constructor
      · intro h; cases h
      · intro h; omega
    · intro c sh1 h
      rw [new_eq_some hP hv] at h
      cases h
      exact ⟨rfl, hc, rfl, rfl, rfl, rfl, fun mode2 => ⟨_, new_eq_some hP hv mode2 sh, rfl, rfl⟩⟩
  · constructor
    · rw [new_eq_none hv]
      unfold validMessageSize at hv
      constructor
      · intro _; omega
      · intro _; rfl
    · intro c sh1 h
      rw [new_eq_none hv] at h
      cases h

theorem construction_contract_witness :
    refPlatform.WF ∧
    (MemoryChannel.new refPlatform Mode.Producer 0 Shared.zero = none ↔
      (0 < refPlatform.sizeofRingHead ∨ 0 ≥ refPlatform.PAGESIZE / 2)) ∧
    MemoryChannel.new refPlatform Mode.Producer 64 Shared.zero
      = some (MemoryChannel.mk Mode.Producer 64 63 0, Shared.zero) ∧
    (MemoryChannel.mk Mode.Producer 64 63 0).maximumMessages = refPlatform.PAGESIZE / 64 - 1 :=
  ⟨by decide, (construction_contract refPlatform (by decide) Mode.Producer 0 Shared.zero).1,
    rfl,
    ((construction_contract refPlatform (by decide) Mode.Producer 64 Shared.zero).2
      _ _ rfl).2.1⟩

/-! ## Binding and flushing -/

/-- C11 (the result of `setPhysical` identifies the failure), refuted: a call whose data
request fails with code 1 and a call whose feedback request fails with code 2 both fail,
differ in the failing region and in the failure code as their log lines show, and return
the same result. -/
theorem setPhysical_result_same :
    (MemoryChannel.setPhysical refPlatform dataFails (Bases.mk 0 0) 4096 8192).1
      ≠ Result.Success ∧
    (MemoryChannel.setPhysical refPlatform feedbackFails (Bases.mk 0 0) 4096 8192).1
      ≠ Result.Success ∧
    (MemoryChannel.setPhysical refPlatform dataFails (Bases.mk 0 0) 4096 8192).2.2.2
      = [LogLine.mk RegionId.data 4096 1] ∧
    (MemoryChannel.setPhysical refPlatform feedbackFails (Bases.mk 0 0) 4096 8192).2.2.2
      = [LogLine.mk RegionId.feedback 8192 2] ∧
    ¬ ((MemoryChannel.setPhysical refPlatform dataFails (Bases.mk 0 0) 4096 8192).1
      ≠ (MemoryChannel.setPhysical refPlatform feedbackFails (Bases.mk 0 0) 4096 8192).1) := by
  decide

/-- C11 as amended. Whenever `setPhysical` does not return `Success` it returns
`IOError`, whichever request failed and whatever its code; the failing region, the
address and the failure code appear only in the single line written to the error log. -/
theorem setPhysical_failure (P : Platform) (mapper : Mapper) (b : Bases)
    (data feedback : Nat)
    (h : (MemoryChannel.setPhysical P mapper b data feedback).1 ≠ Result.Success) :
    (MemoryChannel.setPhysical P mapper b data feedback).1 = Result.IOError ∧
    (((mapper RegionId.data data P.PAGESIZE).code ≠ 0 ∧
        (MemoryChannel.setPhysical P mapper b data feedback).2.2.2
          = [LogLine.mk RegionId.data data (mapper RegionId.data data P.PAGESIZE).code]) ∨
      ((mapper RegionId.data data P.PAGESIZE).code = 0 ∧
        (mapper RegionId.feedback feedback P.PAGESIZE).code ≠ 0 ∧
        (MemoryChannel.setPhysical P mapper b data feedback).2.2.2
          = [LogLine.mk RegionId.feedback feedback
              (mapper RegionId.feedback feedback P.PAGESIZE).code])) := by
  by_cases h1 : (mapper RegionId.data data P.PAGESIZE).code = 0
  · by_cases h2 : (mapper RegionId.feedback feedback P.PAGESIZE).code = 0
    · simp [MemoryChannel.setPhysical, h1, h2] at h
    · simp [MemoryChannel.setPhysical, h1, h2]
  · simp [MemoryChannel.setPhysical, h1]

theorem setPhysical_failure_witness :
    (MemoryChannel.setPhysical refPlatform feedbackFails (Bases.mk 0 0) 4096 8192).1
      ≠ Result.Success ∧
    (MemoryChannel.setPhysical refPlatform feedbackFails (Bases.mk 0 0) 4096 8192).1
      = Result.IOError :=
  ⟨by decide,
    (setPhysical_failure refPlatform feedbackFails (Bases.mk 0 0) 4096 8192 (by decide)).1⟩

/-- C12 (binding contract). The call `setPhysical` returns `Success` exactly when the
memory subsystem answers both the data request and the feedback request with the success
code; the data request is made first and the feedback request only after the data
request succeeded; when the feedback request fails the call returns `IOError` and the
data handle keeps the base its successful request gave it; `setVirtual` returns `Success`
for every pair of addresses and sets both bases. -/
theorem binding_contract (P : Platform) (mapper : Mapper) (b : Bases) (data feedback : Nat) :
    ((MemoryChannel.setPhysical P mapper b data feedback).1 = Result.Success ↔
      ((mapper RegionId.data data P.PAGESIZE).code = 0 ∧
        (mapper RegionId.feedback feedback P.PAGESIZE).code = 0)) ∧
    ((mapper RegionId.data data P.PAGESIZE).code ≠ 0 →
      (MemoryChannel.setPhysical P mapper b data feedback).2.2.1
        = [MapRequest.mk RegionId.data data P.PAGESIZE]) ∧
    ((mapper RegionId.data data P.PAGESIZE).code = 0 →
      (MemoryChannel.setPhysical P mapper b data feedback).2.2.1
        = [MapRequest.mk RegionId.data data P.PAGESIZE,
            MapRequest.mk RegionId.feedback feedback P.PAGESIZE]) ∧
    ((mapper RegionId.data data P.PAGESIZE).code = 0 →
      (mapper RegionId.feedback feedback P.PAGESIZE).code ≠ 0 →
      (MemoryChannel.setPhysical P mapper b data feedback).1 = Result.IOError ∧
      (MemoryChannel.setPhysical P mapper b data feedback).2.1.dataBase
        = (mapper RegionId.data data P.PAGESIZE).base ∧
      (MemoryChannel.setPhysical P mapper b data feedback).2.1.feedbackBase
        = b.feedbackBase) ∧
    MemoryChannel.setVirtual b data feedback = (Result.Success, Bases.mk data feedback) := by
  by_cases h1 : (mapper RegionId.data data P.PAGESIZE).code = 0
  · by_cases h2 : (mapper RegionId.feedback feedback P.PAGESIZE).code = 0
    · simp [MemoryChannel.setPhysical, MemoryChannel.setVirtual, h1, h2]
    · simp [MemoryChannel.setPhysical, MemoryChannel.setVirtual, h1, h2]
  · simp [MemoryChannel.setPhysical, MemoryChannel.setVirtual, h1]

theorem binding_contract_witness :
    (feedbackFails RegionId.data 4096 refPlatform.PAGESIZE).code = 0 ∧
    (feedbackFails RegionId.feedback 8192 refPlatform.PAGESIZE).code ≠ 0 ∧
    (MemoryChannel.setPhysical refPlatform feedbackFails (Bases.mk 0 0) 4096 8192).1
      = Result.IOError ∧
    (MemoryChannel.setPhysical refPlatform feedbackFails (Bases.mk 0 0) 4096 8192).2.1.dataBase
      = (feedbackFails RegionId.data 4096 refPlatform.PAGESIZE).base ∧
    (MemoryChannel.setPhysical refPlatform feedbackFails
        (Bases.mk 0 0) 4096 8192).2.1.feedbackBase
      = (Bases.mk 0 0).feedbackBase :=
  ⟨by decide, by decide,
    (binding_contract refPlatform feedbackFails (Bases.mk 0 0) 4096 8192).2.2.2.1
      (by decide) (by decide)⟩

/-- C13 (privilege check of `flush`). The call returns `IOError` exactly when the caller
is not in the kernel, and makes no cache-clean call exactly then; in the kernel it
returns `Success` after exactly two cache-clean calls, first on the base of the data
handle, then on the base of the feedback handle; in both cases the object (so its local
head) and both pages are as before. -/
theorem flush_privilege (isKernel : Bool) (c : MemoryChannel) (b : Bases) (sh : Shared) :
    ((MemoryChannel.flush isKernel c b sh).1 = Result.IOError ↔ isKernel = false) ∧
    ((MemoryChannel.flush isKernel c b sh).2.2.2 = [] ↔ isKernel = false) ∧
    (isKernel = true →
      (MemoryChannel.flush isKernel c b sh).1 = Result.Success ∧
      (MemoryChannel.flush isKernel c b sh).2.2.2 = [b.dataBase, b.feedbackBase]) ∧
    (MemoryChannel.flush isKernel c b sh).2.1 = c ∧
    (MemoryChannel.flush isKernel c b sh).2.2.1 = sh := by
  cases isKernel <;> simp [MemoryChannel.flush]

theorem flush_privilege_witness :
    (MemoryChannel.flush true (MemoryChannel.mk Mode.Producer 64 63 0) (Bases.mk 4096 8192)
        Shared.zero).1 = Result.Success ∧
    (MemoryChannel.flush true (MemoryChannel.mk Mode.Producer 64 63 0) (Bases.mk 4096 8192)
        Shared.zero).2.2.2 = [4096, 8192] :=
  (flush_privilege true (MemoryChannel.mk Mode.Producer 64 63 0) (Bases.mk 4096 8192)
    Shared.zero).2.2.1 rfl

/-! ## Slot addressing -/

theorem ioRead_getElem (r : Region) (off len i : Nat) (h : i < (ioRead r off len).length) :
    (ioRead r off len)[i] = r (off + i) := by
  simp [ioRead]

theorem payloadOffset_eq {P : Platform} (hP : P.WF) {c : MemoryChannel} (hc : c.WF P) :
    payloadOffset P c = (c.head + 1) * c.messageSize := by
  obtain ⟨hv, hcap, hh⟩ := hc
  rw [hcap] at hh
  obtain ⟨ha, hm, _⟩ := cursor_no_wrap hP hv hh
  unfold payloadOffset
  exact hm

theorem write_stores {P : Platform} (hP : P.WF) {c : MemoryChannel} (hc : c.WF P)
    (sh : Shared) {msg : Bytes} (hm : msg.length = c.messageSize)
    (hs : (c.write P sh msg).1 = Result.Success) :
    slotBytes (c.write P sh msg).2.2.data c.messageSize (c.head + 1) = msg ∧
    headIndex P (c.write P sh msg).2.2.data = (c.write P sh msg).2.1.head ∧
    (c.write P sh msg).2.1.head = (c.head + 1) % c.maximumMessages := by
  have hv := hc.1
  have hlt : c.head < computeMaximumMessages P c.messageSize := by
    rw [← hc.2.1]; exact hc.2.2
  have hM := (cursor_no_wrap hP hv hlt).2.2
  have hpos : 0 < c.maximumMessages := by have := hc.2.2; omega
  have hmod := Nat.mod_lt (c.head + 1) hpos
  rw [write_eq hP hc] at hs ⊢
  split at hs
  · cases hs
  · rename_i hne
    rw [if_neg hne]
    refine ⟨?_, ?_, rfl⟩
    · show ioRead (ioWrite (ioWrite sh.data ((c.head + 1) * c.messageSize) c.messageSize msg)
          0 P.sizeofRingHead _) ((c.head + 1) * c.messageSize) c.messageSize = msg
      have hW : P.sizeofRingHead ≤ c.messageSize := hv.1
      have hoff : c.messageSize ≤ (c.head + 1) * c.messageSize :=
        Nat.le_mul_of_pos_left _ (by omega)
      rw [ioRead_ioWrite_disjoint _ _ _ _ _ _ (Or.inr (by omega)),
        ioRead_ioWrite_same_len _ _ _ _ hm]
    · exact headIndex_ioWrite P _ _ (by rw [← hc.2.1] at hM; omega)

theorem read_fetches {P : Platform} (hP : P.WF) {c : MemoryChannel} (hc : c.WF P)
    (sh : Shared) (buf : Bytes) (hs : (c.read P sh buf).1 = Result.Success) :
    (c.read P sh buf).2.2.2
      = fillBuffer buf c.messageSize (slotBytes sh.data c.messageSize (c.head + 1)) ∧
    headIndex P (c.read P sh buf).2.2.1.feedback = (c.read P sh buf).2.1.head ∧
    (c.read P sh buf).2.1.head = (c.head + 1) % c.maximumMessages := by
  have hv := hc.1
  have hlt : c.head < computeMaximumMessages P c.messageSize := by
    rw [← hc.2.1]; exact hc.2.2
  have hM := (cursor_no_wrap hP hv hlt).2.2
  have hpos : 0 < c.maximumMessages := by have := hc.2.2; omega
  have hmod := Nat.mod_lt (c.head + 1) hpos
  rw [read_eq hP hc] at hs ⊢
  split at hs
  · cases hs
  · rename_i hne
    rw [if_neg hne]
    exact ⟨rfl, headIndex_ioWrite P _ _ (by rw [← hc.2.1] at hM; omega), rfl⟩

theorem wrapState_reachable : Sys.Reachable refPlatform 512 wrapState :=
  ⟨_, wrapOps, fresh_eq (by decide) (by decide), rfl⟩

theorem wrapState_prodWF : wrapState.prod.WF refPlatform :=
  ⟨by decide, by decide, by decide⟩

/-- C14 (slot addressing), refuted at a reachable state: with 512-byte messages
(capacity 7), after six writes and one read the producer's head is 6; the next write
succeeds, and slot `(6 + 1) mod 7 = 0` of the data page does not hold the message (its
byte 4 is still zero), which is in slot 7, while the head index the write publishes
is 0. -/
theorem wrap_slot_counterexample :
    Sys.Reachable refPlatform 512 wrapState ∧
    wrapState.prod.head = 6 ∧ wrapState.prod.maximumMessages = 7 ∧
    (wrapState.prod.write refPlatform wrapState.sh (List.replicate 512 9)).1
      = Result.Success ∧
    slotBytes (wrapState.prod.write refPlatform wrapState.sh (List.replicate 512 9)).2.2.data
        512 ((wrapState.prod.head + 1) % wrapState.prod.maximumMessages)
      ≠ List.replicate 512 9 ∧
    slotBytes (wrapState.prod.write refPlatform wrapState.sh (List.replicate 512 9)).2.2.data
        512 7 = List.replicate 512 9 ∧
    headIndex refPlatform
        (wrapState.prod.write refPlatform wrapState.sh (List.replicate 512 9)).2.2.data
      = 0 := by
  have hs : (wrapState.prod.write refPlatform wrapState.sh (List.replicate 512 9)).1
      = Result.Success := by decide
  have h6 : wrapState.prod.head = 6 := by decide
  have h7 : wrapState.prod.maximumMessages = 7 := by decide
  have hms : wrapState.prod.messageSize = 512 := by decide
  have hlen9 : (List.replicate 512 9).length = wrapState.prod.messageSize := by
    rw [hms]; exact List.length_replicate _ _
  have hst := write_stores (by decide) wrapState_prodWF wrapState.sh hlen9 hs
  rw [hms, h6] at hst
  refine ⟨wrapState_reachable, h6, h7, hs, ?_, hst.1, by decide⟩
  intro h
  have hlen : 4 < (slotBytes
      (wrapState.prod.write refPlatform wrapState.sh (List.replicate 512 9)).2.2.data 512
      ((wrapState.prod.head + 1) % wrapState.prod.maximumMessages)).length := by
    rw [h, List.length_replicate]; omega
  have hb : (slotBytes
      (wrapState.prod.write refPlatform wrapState.sh (List.replicate 512 9)).2.2.data 512
      ((wrapState.prod.head + 1) % wrapState.prod.maximumMessages))[4] = 9 := by
    have hg : ∀ (l : Bytes) (hl : 4 < l.length), l = List.replicate 512 9 → l[4] = 9 := by
      intro l hl e
      subst e
      exact List.getElem_replicate _ _
    exact hg _ hlen h
  unfold slotBytes at hb
  rw [ioRead_getElem] at hb
  revert hb
  decide

/-- C14 as amended. For a constructed object with local head `h`, the payload access of
`read` and of `write` is at offset `(h + 1) * messageSize`, that is slot `h + 1`, one of
the slots 1 to `capacity`: a successful write leaves the message in slot `h + 1` and a
successful read copies slot `h + 1` into the buffer. The index the write publishes is
`(h + 1) mod capacity`, which is the slot number when `h + 1 < capacity` and is 0 when
`h + 1 = capacity`. -/
theorem slot_addressing (P : Platform) (hP : P.WF) (c : MemoryChannel) (hc : c.WF P)
    (sh : Shared) (msg buf : Bytes) (hm : msg.length = c.messageSize) :
    payloadOffset P c = (c.head + 1) * c.messageSize ∧
    1 ≤ c.head + 1 ∧ c.head + 1 ≤ c.maximumMessages ∧
    ((c.write P sh msg).1 = Result.Success →
      slotBytes (c.write P sh msg).2.2.data c.messageSize (c.head + 1) = msg ∧
      headIndex P (c.write P sh msg).2.2.data = (c.head + 1) % c.maximumMessages) ∧
    ((c.read P sh buf).1 = Result.Success →
      (c.read P sh buf).2.2.2
        = fillBuffer buf c.messageSize (slotBytes sh.data c.messageSize (c.head + 1))) ∧
    (c.head + 1 < c.maximumMessages → (c.head + 1) % c.maximumMessages = c.head + 1) ∧
    (c.head + 1 = c.maximumMessages → (c.head + 1) % c.maximumMessages = 0) := by
  have hlt := hc.2.2
  refine ⟨payloadOffset_eq hP hc, by omega, by omega, ?_, ?_, ?_, ?_⟩
  · intro hs
    obtain ⟨h1, h2, h3⟩ := write_stores hP hc sh hm hs
    exact ⟨h1, by rw [h2, h3]⟩
  · intro hs
    exact (read_fetches hP hc sh buf hs).1
  · intro h
    exact Nat.mod_eq_of_lt h
  · intro h
    rw [h, Nat.mod_self]

theorem slot_addressing_witness :
    refPlatform.WF ∧ wrapState.prod.WF refPlatform ∧
    (List.replicate 512 9).length = wrapState.prod.messageSize ∧
    payloadOffset refPlatform wrapState.prod
      = (wrapState.prod.head + 1) * wrapState.prod.messageSize :=
  ⟨by decide, wrapState_prodWF, (List.length_replicate _ _).trans (by decide),
    (slot_addressing refPlatform (by decide) wrapState.prod wrapState_prodWF wrapState.sh
      (List.replicate 512 9) (List.replicate 512 0)
      ((List.length_replicate _ _).trans (by decide))).1⟩

/-! ## Outstanding messages and published cursors -/

theorem outstanding_eq {n c k p : Nat} (hc : c < n) (hk : k < n) (hp : p = (c + k) % n) :
    ((p : Int) - (c : Int)) % (n : Int) = (k : Int) := by
  have hk0 : (0 : Int) ≤ (k : Int) := Int.ofNat_nonneg k
  have hkn : (k : Int) < (n : Int) := Int.ofNat_lt.mpr hk
  by_cases h : c + k < n
  · rw [Nat.mod_eq_of_lt h] at hp
    have e : (p : Int) - (c : Int) = (k : Int) := by omega
    rw [e]
    exact Int.emod_eq_of_lt hk0 hkn
  · have h2 : (c + k) % n = c + k - n := by
      rw [Nat.mod_eq_sub_mod (by omega)]
      exact Nat.mod_eq_of_lt (by omega)
    rw [h2] at hp
    have e : (p : Int) - (c : Int) = (k : Int) + (-1) * (n : Int) := by omega
    rw [e, Int.add_mul_emod_self]
    exact Int.emod_eq_of_lt hk0 hkn

theorem Inv.read_notFound_iff {P : Platform} (hP : P.WF) {ms : Nat}
    (hv : validMessageSize P ms) {s : Sys} {pending : List Bytes}
    (hI : Sys.Inv P ms s pending) (buf : Bytes) :
    (s.cons.read P s.sh buf).1 = Result.NotFound ↔ pending.length = 0 := by
  rw [read_eq hP (IdxInv.consWF hv hI.idx), hI.idx.dataHead]
  have hiff := ahead_eq_iff hI.idx.consHead hI.len
  rw [← hI.ahead] at hiff
  split
  · rename_i h; simp [hiff.mp h]
  · rename_i h
    constructor
    · intro hc; cases hc
    · intro hk; exact absurd (hiff.mpr hk) h

theorem Inv.write_full_iff {P : Platform} (hP : P.WF) {ms : Nat}
    (hv : validMessageSize P ms) {s : Sys} {pending : List Bytes}
    (hI : Sys.Inv P ms s pending) (msg : Bytes) :
    (s.prod.write P s.sh msg).1 = Result.ChannelFull ↔
      pending.length + 1 = computeMaximumMessages P ms := by
  rw [write_eq hP (IdxInv.prodWF hv hI.idx), hI.idx.feedbackHead, hI.idx.prodCap]
  have hiff := next_eq_iff hI.idx.consHead hI.len
  rw [← hI.ahead] at hiff
  split
  · rename_i h; simp [hiff.mp h]
  · rename_i h
    constructor
    · intro hc; cases hc
    · intro hk; exact absurd (hiff.mpr hk) h

/-- C15 (full/empty disambiguation). For every valid message size and every sequence of
writes (of `messageSize`-byte messages) and reads on the fresh pair, in the state
reached: the number of outstanding messages, successful writes minus successful reads,
is below the capacity and equals `(producerHead - consumerHead) mod capacity`; the
consumer's next read returns `NotFound` exactly when that number is 0, and the producer's
next write returns `ChannelFull` exactly when that number is `capacity - 1`. -/
theorem full_empty_disambiguation (P : Platform) (hP : P.WF) (ms : Nat)
    (hv : validMessageSize P ms) (ops : List Op) (hops : validOps ms ops) :
    ∃ s0, Sys.fresh P ms = some s0 ∧
      (delivered ms ops (Sys.run P s0 ops).1).length
        ≤ (accepted ops (Sys.run P s0 ops).1).length ∧
      (accepted ops (Sys.run P s0 ops).1).length
          - (delivered ms ops (Sys.run P s0 ops).1).length
        < computeMaximumMessages P ms ∧
      (((Sys.run P s0 ops).2.prod.head : Int) - ((Sys.run P s0 ops).2.cons.head : Int))
          % (computeMaximumMessages P ms : Int)
        = (((accepted ops (Sys.run P s0 ops).1).length
            - (delivered ms ops (Sys.run P s0 ops).1).length : Nat) : Int) ∧
      (∀ buf, ((Sys.run P s0 ops).2.cons.read P (Sys.run P s0 ops).2.sh buf).1
          = Result.NotFound ↔
        (accepted ops (Sys.run P s0 ops).1).length
          - (delivered ms ops (Sys.run P s0 ops).1).length = 0) ∧
      (∀ msg, ((Sys.run P s0 ops).2.prod.write P (Sys.run P s0 ops).2.sh msg).1
          = Result.ChannelFull ↔
        (accepted ops (Sys.run P s0 ops).1).length
          - (delivered ms ops (Sys.run P s0 ops).1).length
          = computeMaximumMessages P ms - 1) := by
  refine ⟨_, fresh_eq hP hv, ?_⟩
  have h0 := fresh_inv hP hv (fresh_eq hP hv)
  obtain ⟨q, hq1, hq2⟩ := run_inv hP hv ops h0 hops
  rw [List.nil_append] at hq2
  simp only [hq2, List.length_append, Nat.add_sub_cancel_left]
  have hqlen := hq1.len
  refine ⟨by omega, hqlen, outstanding_eq hq1.idx.consHead hqlen hq1.ahead, ?_, ?_⟩
  · intro buf
    exact Inv.read_notFound_iff hP hv hq1 buf
  · intro msg
    rw [Inv.write_full_iff hP hv hq1 msg]
    omega

theorem full_empty_disambiguation_witness :
    refPlatform.WF ∧ validMessageSize refPlatform 512 ∧ validOps 512 (pairOps 512) ∧
    ∃ s0, Sys.fresh refPlatform 512 = some s0 ∧
      (delivered 512 (pairOps 512) (Sys.run refPlatform s0 (pairOps 512)).1).length
        ≤ (accepted (pairOps 512) (Sys.run refPlatform s0 (pairOps 512)).1).length :=
  ⟨by decide, by decide, pairOps_valid 512, by
    obtain ⟨s0, h0, h1, _⟩ := full_empty_disambiguation refPlatform (by decide) 512
      (by decide) (pairOps 512) (pairOps_valid 512)
    exact ⟨s0, h0, h1⟩⟩

/-- C16 (published cursors mirror local cursors). For a constructed object, after a
successful write the index at offset 0 of the data page equals the new local head, which
is `(old head + 1) mod capacity`; after a successful read the index at offset 0 of the
feedback page equals the new local head, which is `(old head + 1) mod capacity`; and in
every state reachable from the fresh pair the data head record equals the producer's
local head and the feedback head record equals the consumer's local head. -/
theorem published_cursors (P : Platform) (hP : P.WF) :
    (∀ (c : MemoryChannel) (sh : Shared) (msg : Bytes), c.WF P →
      (c.write P sh msg).1 = Result.Success →
      headIndex P (c.write P sh msg).2.2.data = (c.write P sh msg).2.1.head ∧
      (c.write P sh msg).2.1.head = (c.head + 1) % c.maximumMessages) ∧
    (∀ (c : MemoryChannel) (sh : Shared) (buf : Bytes), c.WF P →
      (c.read P sh buf).1 = Result.Success →
      headIndex P (c.read P sh buf).2.2.1.feedback = (c.read P sh buf).2.1.head ∧
      (c.read P sh buf).2.1.head = (c.head + 1) % c.maximumMessages) ∧
    (∀ (ms : Nat) (s : Sys), validMessageSize P ms → Sys.Reachable P ms s →
      headIndex P s.sh.data = s.prod.head ∧ headIndex P s.sh.feedback = s.cons.head) := by
  refine ⟨?_, ?_, ?_⟩
  · intro c sh msg hc hs
    have hv := hc.1
    have hlt : c.head < computeMaximumMessages P c.messageSize := by
      rw [← hc.2.1]; exact hc.2.2
    have hM := (cursor_no_wrap hP hv hlt).2.2
    rw [← hc.2.1] at hM
    have hmod := Nat.mod_lt (c.head + 1) (by have := hc.2.2; omega : 0 < c.maximumMessages)
    rw [write_eq hP hc] at hs ⊢
    split at hs
    · cases hs
    · rename_i hne
      rw [if_neg hne]
      exact ⟨headIndex_ioWrite P _ _ (by omega), rfl⟩
  · intro c sh buf hc hs
    exact (read_fetches hP hc sh buf hs).2
  · intro ms s hv hr
    obtain ⟨s0, ops, h0, rfl⟩ := hr
    have hI := run_idx hP hv ops (fresh_inv hP hv h0).idx
    exact ⟨hI.dataHead, hI.feedbackHead⟩

theorem published_cursors_witness :
    refPlatform.WF ∧ validMessageSize refPlatform 512 ∧
    Sys.Reachable refPlatform 512 wrapState ∧
    headIndex refPlatform wrapState.sh.data = wrapState.prod.head ∧
    headIndex refPlatform wrapState.sh.feedback = wrapState.cons.head :=
  ⟨by decide, by decide, wrapState_reachable,
    (published_cursors refPlatform (by decide)).2.2 512 wrapState (by decide)
      wrapState_reachable⟩

/-! ## Order and range of page accesses -/

theorem writeTraced_eq (P : Platform) (c : MemoryChannel) (sh : Shared) (tr : List Access)
    (buffer : Bytes) :
    c.writeTraced P (TracedShared.mk sh tr) buffer =
      ((c.write P sh buffer).1, (c.write P sh buffer).2.1,
        TracedShared.mk (c.write P sh buffer).2.2
          (tr ++
            if (c.write P sh buffer).1 = Result.Success then
              [Access.read RegionId.feedback 0 P.sizeofRingHead,
                Access.write RegionId.data (payloadOffset P c) c.messageSize,
                Access.write RegionId.data 0 P.sizeofRingHead]
            else [Access.read RegionId.feedback 0 P.sizeofRingHead])) := by
  by_cases h : sizeAdd P c.head 1 % c.maximumMessages
      = decodeSize (ioRead sh.feedback 0 P.sizeofRingHead)
  · simp only [MemoryChannel.writeTraced, MemoryChannel.write, TracedShared.read, Shared.get,
      headIndex, if_pos h]
    simp
  · simp only [MemoryChannel.writeTraced, MemoryChannel.write, TracedShared.read,
      TracedShared.write, Shared.get, Shared.set, payloadOffset, headIndex, if_neg h]
    simp

theorem readTraced_eq (P : Platform) (c : MemoryChannel) (sh : Shared) (tr : List Access)
    (buffer : Bytes) :
    c.readTraced P (TracedShared.mk sh tr) buffer =
      ((c.read P sh buffer).1, (c.read P sh buffer).2.1,
        TracedShared.mk (c.read P sh buffer).2.2.1
          (tr ++
            if (c.read P sh buffer).1 = Result.Success then
              [Access.read RegionId.data 0 P.sizeofRingHead,
                Access.read RegionId.data (payloadOffset P c) c.messageSize,
                Access.write RegionId.feedback 0 P.sizeofRingHead]
            else [Access.read RegionId.data 0 P.sizeofRingHead]),
        (c.read P sh buffer).2.2.2) := by
  by_cases h : decodeSize (ioRead sh.data 0 P.sizeofRingHead) = c.head
  · simp only [MemoryChannel.readTraced, MemoryChannel.read, TracedShared.read, Shared.get,
      headIndex, if_pos h]
    simp
  · simp only [MemoryChannel.readTraced, MemoryChannel.read, TracedShared.read,
      TracedShared.write, Shared.get, Shared.set, payloadOffset, headIndex, if_neg h]
    simp

/-- C17 (order of page accesses within one call). Run over the recording accessor from an
empty record, `write` and `read` return the same result, object, pages and buffer as the
plain methods, and the record is: for a successful write, the read of the feedback head
at offset 0, then the write of `messageSize` payload bytes to the data page, then the
write of the data head at offset 0; for a write returning `ChannelFull`, the feedback
read alone; for a successful read, the read of the data head at offset 0, then the read
of `messageSize` payload bytes from the data page, then the write of the feedback head at
offset 0; for a read returning `NotFound`, the data head read alone. Each call returns
one of its two results. -/
theorem access_order (P : Platform) (c : MemoryChannel) (sh : Shared) (buffer : Bytes) :
    (c.writeTraced P (TracedShared.mk sh []) buffer).1 = (c.write P sh buffer).1 ∧
    (c.writeTraced P (TracedShared.mk sh []) buffer).2.1 = (c.write P sh buffer).2.1 ∧
    (c.writeTraced P (TracedShared.mk sh []) buffer).2.2.sh = (c.write P sh buffer).2.2 ∧
    (c.writeTraced P (TracedShared.mk sh []) buffer).2.2.trace =
      (if (c.write P sh buffer).1 = Result.Success then
        [Access.read RegionId.feedback 0 P.sizeofRingHead,
          Access.write RegionId.data (payloadOffset P c) c.messageSize,
          Access.write RegionId.data 0 P.sizeofRingHead]
      else [Access.read RegionId.feedback 0 P.sizeofRingHead]) ∧
    ((c.write P sh buffer).1 = Result.Success ∨
      (c.write P sh buffer).1 = Result.ChannelFull) ∧
    (c.readTraced P (TracedShared.mk sh []) buffer).1 = (c.read P sh buffer).1 ∧
    (c.readTraced P (TracedShared.mk sh []) buffer).2.1 = (c.read P sh buffer).2.1 ∧
    (c.readTraced P (TracedShared.mk sh []) buffer).2.2.1.sh = (c.read P sh buffer).2.2.1 ∧
    (c.readTraced P (TracedShared.mk sh []) buffer).2.2.2 = (c.read P sh buffer).2.2.2 ∧
    (c.readTraced P (TracedShared.mk sh []) buffer).2.2.1.trace =
      (if (c.read P sh buffer).1 = Result.Success then
        [Access.read RegionId.data 0 P.sizeofRingHead,
          Access.read RegionId.data (payloadOffset P c) c.messageSize,
          Access.write RegionId.feedback 0 P.sizeofRingHead]
      else [Access.read RegionId.data 0 P.sizeofRingHead]) ∧
    ((c.read P sh buffer).1 = Result.Success ∨
      (c.read P sh buffer).1 = Result.NotFound) := by
  rw [writeTraced_eq, readTraced_eq]
  refine ⟨rfl, rfl, rfl, by simp, ?_, rfl, rfl, rfl, rfl, by simp, ?_⟩
  · dsimp only [MemoryChannel.write]
    split
    · exact Or.inr rfl
    · exact Or.inl rfl
  · dsimp only [MemoryChannel.read]
    split
    · exact Or.inr rfl
    · exact Or.inl rfl

/-- C18 (payload accesses stay inside the page and clear of the head record). For every
message size accepted by the assertions and every local head `h` below the capacity, the
offset `(h + 1) * messageSize` is computed without wrapping in `Size`, the range
`[(h + 1) * messageSize, (h + 2) * messageSize)` ends at or before `PAGESIZE` (so its end
does not wrap either) and starts at or after `sizeof(RingHead)`; and every access that
`write` and `read` make ends at or before `PAGESIZE`. -/
theorem payload_in_page (P : Platform) (hP : P.WF) (ms : Nat) (hv : validMessageSize P ms)
    (h : Nat) (hh : h < computeMaximumMessages P ms) (mode : Mode) (sh : Shared)
    (buffer : Bytes) :
    sizeAdd P h 1 = h + 1 ∧
    payloadOffset P (MemoryChannel.mk mode ms (computeMaximumMessages P ms) h)
      = (h + 1) * ms ∧
    (h + 2) * ms ≤ P.PAGESIZE ∧ (h + 2) * ms < P.sizeModulus ∧
    P.sizeofRingHead ≤ (h + 1) * ms ∧
    (∀ a ∈ ((MemoryChannel.mk mode ms (computeMaximumMessages P ms) h).writeTraced P
        (TracedShared.mk sh []) buffer).2.2.trace, a.endOffset ≤ P.PAGESIZE) ∧
    (∀ a ∈ ((MemoryChannel.mk mode ms (computeMaximumMessages P ms) h).readTraced P
        (TracedShared.mk sh []) buffer).2.2.1.trace, a.endOffset ≤ P.PAGESIZE) := by
  obtain ⟨hms, _, _, hle⟩ := capacity_facts hP hv
  obtain ⟨ha, hmul, _⟩ := cursor_no_wrap hP hv hh
  have hM := hP.2
  have hW : P.sizeofRingHead ≤ ms := hv.1
  have hend : (h + 2) * ms ≤ (computeMaximumMessages P ms + 1) * ms :=
    Nat.mul_le_mul_right ms (by omega)
  have hsplit : (h + 2) * ms = (h + 1) * ms + ms := by
    rw [Nat.add_mul (h + 1) 1 ms, Nat.one_mul]
  have hstart : ms ≤ (h + 1) * ms := Nat.le_mul_of_pos_left ms (by omega)
  have hoff : payloadOffset P (MemoryChannel.mk mode ms (computeMaximumMessages P ms) h)
      = (h + 1) * ms := by
    unfold payloadOffset
    exact hmul
  have hacc : ∀ a : Access,
      a = Access.read RegionId.feedback 0 P.sizeofRingHead ∨
      a = Access.read RegionId.data 0 P.sizeofRingHead ∨
      a = Access.write RegionId.data 0 P.sizeofRingHead ∨
      a = Access.write RegionId.feedback 0 P.sizeofRingHead ∨
      a = Access.read RegionId.data ((h + 1) * ms) ms ∨
      a = Access.write RegionId.data ((h + 1) * ms) ms →
      a.endOffset ≤ P.PAGESIZE := by
    intro a ha
    rcases ha with rfl | rfl | rfl | rfl | rfl | rfl <;>
      simp only [Access.endOffset] <;> omega
  refine ⟨ha, hoff, by omega, by omega, by omega, ?_, ?_⟩
  · intro a hmem
    rw [writeTraced_eq, hoff] at hmem
    apply hacc
    simp only [List.nil_append] at hmem
    split at hmem <;> simp at hmem <;> tauto
  · intro a hmem
    rw [readTraced_eq, hoff] at hmem
    apply hacc
    simp only [List.nil_append] at hmem
    split at hmem <;> simp at hmem <;> tauto

theorem payload_in_page_witness :
    refPlatform.WF ∧ validMessageSize refPlatform 64 ∧
    62 < computeMaximumMessages refPlatform 64 ∧
    sizeAdd refPlatform 62 1 = 62 + 1 ∧
    payloadOffset refPlatform
        (MemoryChannel.mk Mode.Producer 64 (computeMaximumMessages refPlatform 64) 62)
      = (62 + 1) * 64 ∧
    (62 + 2) * 64 ≤ refPlatform.PAGESIZE ∧ (62 + 2) * 64 < refPlatform.sizeModulus ∧
    refPlatform.sizeofRingHead ≤ (62 + 1) * 64 :=
  ⟨by decide, by decide, by decide, by
    obtain ⟨h1, h2, h3, h4, h5, _⟩ := payload_in_page refPlatform (by decide) 64 (by decide)
      62 (by decide) Mode.Producer Shared.zero []
    exact ⟨h1, h2, h3, h4, h5⟩⟩

end FreeNOS
